import Mathlib

/-!
apizza: saved orders, vendor errors, cards, addresses and the config command.

A shallow embedding of `managedb.go` (package `data`) and of `set` and `get` of
`configdpz.go` (package `commands`), together with the parts of package `dawg` that their
callers and the test-suite `dawg-test.go` rely on.

* Stateful code is written in explicit state-passing style over `World`
  (database, output writer, trace of external calls).
* A Go `error` is an `Option GoError`; `none` is `nil`.
* A Go `[]byte` that may be `nil` is an `Option Bytes`.
-/

namespace Apizza

/-! ## Data model -/

/-- Raw payload stored in the cache; the store never interprets it. -/
abbrev Bytes := String

/-- One entry of a `StatusItems` list of the vendor envelope. The test-suite shows the two
shapes `Code`/`Message` and `PulseCode`/`PulseText`; an absent JSON field decodes to the
zero value of its Go type. -/
structure StatusItem where
  Code : String
  Message : String
  PulseCode : Int
  PulseText : String
deriving DecidableEq, Repr

/-- The nested `Order` object of the vendor envelope. -/
structure OrderStatus where
  Status : Int
  StatusItems : List StatusItem
deriving DecidableEq, Repr

/-- The decoded vendor envelope `Status`, `StatusItems`, `Order`. -/
structure DominosError where
  Status : Int
  StatusItems : List StatusItem
  Order : OrderStatus
deriving DecidableEq, Repr

/-! ## Strings -/

/-- The test `strings.HasPrefix` on character lists. -/
def startsWith : List Char → List Char → Bool
  | _, [] => true
  | [], _ :: _ => false
  | c :: s, p :: pre => decide (c = p) && startsWith s pre

/-- The test `strings.Contains` on character lists. -/
def containsChars (sub : List Char) : List Char → Bool
  | [] => startsWith [] sub
  | c :: rest => startsWith (c :: rest) sub || containsChars sub rest

/-- The call `strings.Replace(s, old, new, -1)` on character lists for a non-empty `old`:
every non-overlapping occurrence of `old`, scanning from the left, is replaced by `new`.
`skip` counts the characters of a matched occurrence that are still to be dropped. -/
def replaceChars (old new : List Char) : Nat → List Char → List Char
  | _, [] => []
  | skip + 1, _ :: rest => replaceChars old new skip rest
  | 0, c :: rest =>
    if startsWith (c :: rest) old then new ++ replaceChars old new (old.length - 1) rest
    else c :: replaceChars old new 0 rest

/-- The function `strings.Contains`. -/
def Contains (s substr : String) : Bool := containsChars substr.data s.data

/-- The call `strings.Replace(s, old, new, -1)`, for a non-empty `old`. -/
def ReplaceAll (s old new : String) : String := String.mk (replaceChars old.data new.data 0 s.data)

/-- The pieces of `s` between the occurrences of `sep`, as `strings.Split` returns them for
a one-character separator; `cur` is the piece being read, reversed. -/
def splitChars (sep : Char) (cur : List Char) : List Char → List (List Char)
  | [] => [cur.reverse]
  | c :: rest => if c = sep then cur.reverse :: splitChars sep [] rest
    else splitChars sep (c :: cur) rest

/-- Decimal value of a digit string read so far as `acc`; `none` when a character is not a
decimal digit. -/
def digitsValue (acc : Nat) : List Char → Option Nat
  | [] => some acc
  | c :: rest => if c.isDigit then digitsValue (10 * acc + (c.toNat - 48)) rest else none

/-- Decimal value of a non-empty string of decimal digits. -/
def atoi (s : List Char) : Option Nat :=
  match s with
  | [] => none
  | _ :: _ => digitsValue 0 s

/-! ## Vendor error report -/

/-- Severity of a vendor error. -/
inductive Severity where
  | Ok
  | Warning
  | Failure
deriving DecidableEq, Repr

/-- Modelled from the spec: the severity mapping of package `dawg` is missing from the
sources. Spec §4.2: `Status == 0` is Ok, `Status == 1` is Warning, `Status < 0` is Failure;
no severity is given for a status above 1. -/
def Severity.ofStatus (status : Int) : Option Severity :=
  if status < 0 then some Severity.Failure
  else if status = 0 then some Severity.Ok
  else if status = 1 then some Severity.Warning
  else none

/-- The label of a severity in the header line of the report. -/
def Severity.label : Option Severity → String
  | some Severity.Ok => "Ok"
  | some Severity.Warning => "Warning"
  | some Severity.Failure => "Failure"
  | none => "Unknown"

/-- A normalised failure item: the code, the message of the item that carries the code, and
the messages of the code-less items that follow it. -/
structure FailureItem where
  code : String
  own : Option String
  extra : List String
deriving DecidableEq, Repr

/-- Modelled from the spec: the message text of a status item (§4.2): its `Message`, or else
its `PulseCode`/`PulseText` pair rendered as `PulseCode <n>: <text>`. -/
def StatusItem.text (it : StatusItem) : Option String :=
  if it.Message ≠ "" then some it.Message
  else if it.PulseText ≠ "" then some ("PulseCode " ++ toString it.PulseCode ++ ": " ++ it.PulseText)
  else none

/-- The failure item opened by a status item that has a `Code`. -/
def FailureItem.ofItem (it : StatusItem) : FailureItem :=
  { code := it.Code, own := it.text, extra := [] }

/-- Attach the message of a code-less status item to the failure item before it. -/
def FailureItem.attach (b : FailureItem) (it : StatusItem) : FailureItem :=
  match it.text with
  | some m => { b with extra := b.extra ++ [m] }
  | none => b

/-- Normalisation of the items that follow the open failure item `cur`. -/
def collectFrom (cur : FailureItem) : List StatusItem → List FailureItem
  | [] => [cur]
  | it :: rest =>
    if it.Code ≠ "" then cur :: collectFrom (FailureItem.ofItem it) rest
    else collectFrom (cur.attach it) rest

/-- Modelled from the spec: the normalisation of `Order.StatusItems` (§4.2) is missing from
the sources. Every item with a `Code` opens a failure item; an item lacking a `Code` is
associated with the preceding item and opens none. A code-less item with no item before it
has nothing to be associated with and is left out. -/
def collect : List StatusItem → List FailureItem
  | [] => []
  | it :: rest => if it.Code ≠ "" then collectFrom (FailureItem.ofItem it) rest else collect rest

/-- Modelled from the spec: one indented block of the report (§4.2),
`    Failure Code: '<code>':` and the message on the next line. Following the literal
report of `TestDominosErrorFailure`, the colon belongs to the message of the item that
carries the code; the message of a following code-less item is added on a line of its own. -/
def FailureItem.render (b : FailureItem) : String :=
  "    Failure Code: '" ++ b.code ++ "'"
    ++ (match b.own with
        | some m => ":\n        " ++ m
        | none => "")
    ++ String.join (b.extra.map (fun m => "\n        " ++ m))

/-- Modelled from the spec: the method `DominosError.Error` is missing from the sources.
Spec §4.2: a header line `Dominos <label> (<status>)` followed by one indented block per
failure item of the nested `Order.StatusItems`. -/
def DominosError.Error (e : DominosError) : String :=
  "Dominos " ++ Severity.label (Severity.ofStatus e.Status) ++ " (" ++ toString e.Status ++ ")"
    ++ String.join ((collect e.Order.StatusItems).map (fun b => "\n" ++ b.render))

/-- What `encoding/json` makes of a response body before the interpreter looks at it. -/
inductive Response where
  | empty
  | malformed (err : String)
  | envelope (e : DominosError)
deriving DecidableEq, Repr

/-- A Go error value: either a plain error carrying its text (`errors.New`, `fmt.Errorf`,
errors of the cache, of `encoding/json`, of the transport) or a decoded vendor error. -/
inductive GoError where
  | text (msg : String)
  | dominos (e : DominosError)
deriving DecidableEq, Repr

/-- The method `Error()` of a Go error. -/
def GoError.Error : GoError → String
  | .text msg => msg
  | .dominos e => e.Error

/-- Modelled from the spec: the function `dominosErr` of package `dawg` is missing from the
sources. Spec §4.2: malformed input fails with the underlying decode error, nil or empty
input is Ok (no error), and an envelope with `Status == 0` is Ok (no error). -/
def dominosErr : Response → Option GoError
  | .empty => none
  | .malformed err => some (.text err)
  | .envelope e => if e.Status = 0 then none else some (.dominos e)

/-- The function `errs.Pair`, which is missing from the sources, as `TestErrPair` fixes its
sibling `errpair`: nil for two nil errors, the non-nil one of a nil and a non-nil error, and
for two errors the error with text `error 1. <first>` and `error 2. <second>` on two lines. -/
def Pair : Option GoError → Option GoError → Option GoError
  | none, none => none
  | some a, none => some a
  | none, some b => some b
  | some a, some b => some (.text ("error 1. " ++ a.Error ++ "\nerror 2. " ++ b.Error))

/-- Canonical street address, with the fields used by `dawg-test.go`. -/
structure StreetAddr where
  StreetNum : String
  StreetName : String
  Street : String
  CityName : String
  State : String
  Zipcode : String
  AddrType : String
deriving DecidableEq, Repr

/-- A product of an order: `ItemCommon.Code`, the option mapping and the quantity. -/
structure OrderProduct where
  Code : String
  Opts : List (String × List (String × String))
  Qty : Nat
deriving DecidableEq, Repr

/-- The `dawg.Order` value with the fields set by `TestDominosErrors`, plus the name under
which the user saved it. -/
structure Order where
  LanguageCode : String
  ServiceMethod : String
  Products : List OrderProduct
  StoreID : String
  OrderID : String
  Address : Option StreetAddr
  OrderName : String
deriving DecidableEq, Repr

/-- The `Order.Name` accessor. -/
def Order.Name (o : Order) : String := o.OrderName

/-- The `Order.SetName` mutator. -/
def Order.SetName (o : Order) (name : String) : Order := { o with OrderName := name }

/-- The value of `&dawg.Order{}` after `Init()`: every serialised field is at its zero value
(`Init` only attaches the HTTP client, which is not part of the data). -/
def Order.fresh : Order :=
  { LanguageCode := "", ServiceMethod := "", Products := [], StoreID := "", OrderID := "",
    Address := none, OrderName := "" }

/-- The two calls of `encoding/json` made by `managedb.go`, taken as a parameter.
`unmarshal raw o` decodes `raw` into the existing order `o` and returns the (possibly
partially) updated order with the decode error. -/
structure JSONCodec where
  marshal : Order → Except GoError Bytes
  unmarshal : Bytes → Order → Order × Option GoError

/-! ## Severity predicates -/

/-- Modelled from the spec: `IsOk` of package `dawg` is missing from the sources. Spec §4.2:
a nil error is Ok and `Status == 0` is Ok. An error that is not a vendor error has no
severity. -/
def IsOk : Option GoError → Bool
  | none => true
  | some (.dominos e) => decide (e.Status = 0)
  | some (.text _) => false

/-- Modelled from the spec: `IsWarning` of package `dawg` is missing from the sources.
Spec §4.2: a nil error is not a warning and `Status == 1` is Warning. -/
def IsWarning : Option GoError → Bool
  | none => false
  | some (.dominos e) => decide (e.Status = 1)
  | some (.text _) => false

/-- Modelled from the spec: `IsFailure` of package `dawg` is missing from the sources.
Spec §4.2: a nil error is not a failure and `Status < 0` is Failure. -/
def IsFailure : Option GoError → Bool
  | none => false
  | some (.dominos e) => decide (e.Status < 0)
  | some (.text _) => false

/-! ## The cache -/

/-- Insert or replace the value stored under `key`. -/
def upsert (key : String) (val : Bytes) : List (String × Bytes) → List (String × Bytes)
  | [] => [(key, val)]
  | (k, v) :: rest => if k = key then (key, val) :: rest else (k, v) :: upsert key val rest

/-- Value stored under `key`, if any. -/
def lookupKey (key : String) : List (String × Bytes) → Option Bytes
  | [] => none
  | (k, v) :: rest => if k = key then some v else lookupKey key rest

/-- Modelled from the spec: the `cache.DataBase` implementation is missing from the sources.
Spec §4.5: `get(key) -> (bytes, error)`, `put(key, bytes) -> error` on opaque payloads and
`map()` as a snapshot of the default bucket. `bucket` is the content of the default bucket,
`fault` is the error of a storage that cannot be opened (it fails every operation) and
`rejects` says which writes the storage refuses. -/
structure DataBase where
  bucket : List (String × Bytes)
  fault : Option GoError
  rejects : String → Bytes → Option GoError

/-- The `Put` method of `cache.Putter`: a failed write leaves the bucket as it was. -/
def DataBase.Put (db : DataBase) (key : String) (val : Bytes) : DataBase × Option GoError :=
  match db.fault with
  | some e => (db, some e)
  | none =>
    match db.rejects key val with
    | some e => (db, some e)
    | none => ({ db with bucket := upsert key val db.bucket }, none)

/-- The `Get` method of `cache.Getter`: nil bytes for an absent key or a failed read. -/
def DataBase.Get (db : DataBase) (key : String) : Option Bytes × Option GoError :=
  match db.fault with
  | some e => (none, some e)
  | none => (lookupKey key db.bucket, none)

/-- The `Map` method of `cache.MapDB`: the snapshot of the default bucket, in the order in
which a `range` loop visits it; a nil map when the snapshot cannot be taken. -/
def DataBase.Map (db : DataBase) : List (String × Bytes) × Option GoError :=
  match db.fault with
  | some e => ([], some e)
  | none => (db.bucket, none)

/-! ## managedb.go -/

/-- The constant `OrderPrefix`. -/
def OrderPrefix : String := "user_order_"

/-- An observable call made to a collaborator. -/
inductive Event where
  | put (key : String) (raw : Bytes)
  | write (text : String)
  | validate (o : Order)
deriving DecidableEq, Repr

/-- What `SaveOrder` can touch: the database, the bytes written to the `io.Writer` so far and
the calls made so far, oldest first. -/
structure World where
  db : DataBase
  out : String
  trace : List Event

/-- The function `SaveOrder(o, w, db)`. `validate` is `dawg.ValidateOrder`, whose answer comes
from the vendor. -/
def SaveOrder (codec : JSONCodec) (validate : Order → Option GoError) (o : Order)
    (s : World) : Option GoError × World :=
  match codec.marshal o with
  | .error err => (some err, s)
  | .ok raw =>
    let key := OrderPrefix ++ o.Name
    let r := s.db.Put key raw
    let s1 : World := { s with db := r.1, trace := s.trace ++ [Event.put key raw] }
    match r.2 with
    | none =>
      let line := "order successfully updated.\n"
      let s2 : World := { s1 with out := s1.out ++ line, trace := s1.trace ++ [Event.write line] }
      let err := validate o
      let s3 : World := { s2 with trace := s2.trace ++ [Event.validate o] }
      if IsFailure err then (err, s3) else (none, s3)
    | some e => (some e, s1)

/-- The function `GetOrder(name, db)`; `get` is the `Get` method of the `cache.Getter`. -/
def GetOrder (codec : JSONCodec) (name : String)
    (get : String → Option Bytes × Option GoError) : Option Order × Option GoError :=
  let r := get (OrderPrefix ++ name)
  match r.1 with
  | none => (none, some (.text ("cannot find order " ++ name)))
  | some raw =>
    let order := Order.fresh.SetName name
    let d := codec.unmarshal raw order
    (some d.1, Pair r.2 d.2)

/-- The loop of `ListOrders` over the snapshot. -/
def orderNames : List (String × Bytes) → List String
  | [] => []
  | (key, _) :: rest =>
    if Contains key OrderPrefix then ReplaceAll key OrderPrefix "" :: orderNames rest
    else orderNames rest

/-- The function `ListOrders(db)`; the error of `Map` is dropped. -/
def ListOrders (db : DataBase) : List String := orderNames db.Map.1

/-! ## Card expiration dates -/

/-- The sentinel `(-1, -1)` of an expiration date that cannot be parsed. -/
def badDate : Int × Int := (-1, -1)

/-- Modelled from the spec: the year of an expiration date (§4.4, §8). A two-digit year is
normalised to `2000 + year`; the table entry `11/2` giving `202` shows that this is done on
the text, by putting `20` in front of a year shorter than four characters. -/
def yearText (y : List Char) : List Char :=
  if y.length < 4 then '2' :: '0' :: y else y

/-- Month and year from their two texts, or the sentinel when one is not a number. -/
def dateOfParts (m y : List Char) : Int × Int :=
  match atoi m, atoi (yearText y) with
  | some month, some year => ((month : Int), (year : Int))
  | _, _ => badDate

/-- Modelled from the spec: the function `parseDate` of package `dawg` is missing from the
sources. Spec §4.4: accepts `MM/YY`, `MMYY`, `MM/YYYY`, `M/YY`, `M/YYYY`; a string without
separator is split after its second character when it has exactly four characters, and is
otherwise unparseable. -/
def parseDate (d : String) : Int × Int :=
  match splitChars '/' [] d.data with
  | [whole] => if whole.length = 4 then dateOfParts (whole.take 2) (whole.drop 2) else badDate
  | [m, y] => dateOfParts m y
  | _ => badDate

/-! ## Payment cards -/

/-- A payment card as `NewCard(number, expiration, cvv)` builds it; construction never
fails. -/
structure Card where
  Number : String
  Expiration : String
  CVV : Nat
deriving DecidableEq, Repr

/-- The constructor `NewCard`. -/
def NewCard (number expiration : String) (cvv : Nat) : Card :=
  { Number := number, Expiration := expiration, CVV := cvv }

/-- The reasons for which a card is refused. -/
inductive CardError where
  | emptyNumber
  | badExpiration
  | badMonth
deriving DecidableEq, Repr

/-- Modelled from the spec: the function `ValidateCard` of package `dawg` is missing from the
sources. Spec §4.4: it fails when the card number is empty, when expiration parsing yields
the sentinel, or when the parsed month is outside `1..12`, and succeeds otherwise; no
checksum is computed on the number. -/
def ValidateCard (c : Card) : Option CardError :=
  if c.Number = "" then some CardError.emptyNumber
  else if parseDate c.Expiration = badDate then some CardError.badExpiration
  else if (parseDate c.Expiration).1 < 1 ∨ 12 < (parseDate c.Expiration).1 then
    some CardError.badMonth
  else none

/-! ## Addresses -/

/-- The structured address of `TestOrderAddressConvertion`, with one free-text street. -/
structure UserAddress where
  Street : String
  CityName : String
  Region : String
  PostalCode : String
deriving DecidableEq, Repr

/-- The accessor `City()`. -/
def StreetAddr.City (a : StreetAddr) : String := a.CityName

/-- The accessor `LineOne()`: the street line. -/
def StreetAddr.LineOne (a : StreetAddr) : String := a.Street

/-- The accessor `StateCode()`. -/
def StreetAddr.StateCode (a : StreetAddr) : String := a.State

/-- The accessor `Zip()`. -/
def StreetAddr.Zip (a : StreetAddr) : String := a.Zipcode

/-- The reasons for which a free-text address is refused. -/
inductive ParseError where
  | noComma
  | noNumber
  | noCity
  | badState
  | badZip
deriving DecidableEq, Repr

/-- The text before and the text after the first occurrence of `sep`. -/
def cutFirst (sep : Char) : List Char → Option (List Char × List Char)
  | [] => none
  | c :: rest =>
    if c = sep then some ([], rest)
    else
      match cutFirst sep rest with
      | some p => some (c :: p.1, p.2)
      | none => none

/-- The text up to and including the first period that is followed by a blank, and the text
after that blank. -/
def cutFirstDot : List Char → Option (List Char × List Char)
  | [] => none
  | c :: rest =>
    if c = '.' ∧ startsWith rest [' '] = true then some ([c], rest.drop 1)
    else
      match cutFirstDot rest with
      | some p => some (c :: p.1, p.2)
      | none => none

/-- What spec §4.3 leaves open in the address functions, taken as a parameter: `boundary`
gives the street name and the city of a text that cannot be read in exactly one way as
`<street name>. <City>` (no period followed by a blank, or several), `unnumbered` gives the
number and the name of a street that has no leading numeric token, and `tag` is the
address-type classifier. -/
structure AddressRules where
  boundary : List Char → Except ParseError (List Char × List Char)
  unnumbered : List Char → List Char × List Char
  tag : String → String

/-- The street name and the city of a text that reads in exactly one way as
`<street name>. <City>`: it has one period followed by a blank, and a city after it. -/
def uniqueReading (text : List Char) : Option (List Char × List Char) :=
  match cutFirstDot text with
  | some p => if p.2 ≠ [] ∧ containsChars ['.', ' '] p.2 = false then some p else none
  | none => none

/-- Modelled from the spec: the number/name splitting routine shared by `ParseAddress` and
`StreetAddrFromAddress` (§4.3): the leading token, when it is numeric, is the street number
and the text after the blank is what follows it. -/
def splitNumber (s : List Char) : Option (List Char × List Char) :=
  match cutFirst ' ' s with
  | some p => if p.1 ≠ [] ∧ p.1.all Char.isDigit = true then some p else none
  | none => none

/-- Number, street name and city of the text before the comma, in the form
`<number> <street name>. <City>`. A missing number is a parse error; the street name and the
city are those of the one reading of the text when there is exactly one, and those of
`rules.boundary` otherwise. -/
def parseHead (rules : AddressRules) (head : List Char) :
    Except ParseError (List Char × List Char × List Char) :=
  match splitNumber head with
  | none => .error ParseError.noNumber
  | some p =>
    match uniqueReading p.2 with
    | some q => .ok (p.1, q.1, q.2)
    | none =>
      match rules.boundary p.2 with
      | .ok q => .ok (p.1, q.1, q.2)
      | .error e => .error e

/-- State and zip of the text after the comma: a blank, a two-letter token, a blank and a
five-digit token. -/
def parseTail (tail : List Char) : Except ParseError (List Char × List Char) :=
  match tail with
  | [] => .error ParseError.badState
  | c :: rest =>
    if c = ' ' then
      match cutFirst ' ' rest with
      | none => .error ParseError.badZip
      | some p =>
        if p.1.length = 2 ∧ p.1.all Char.isAlpha = true then
          if p.2.length = 5 ∧ p.2.all Char.isDigit = true then .ok p
          else .error ParseError.badZip
        else .error ParseError.badState
    else .error ParseError.badState

/-- Modelled from the spec: the function `ParseAddress` of package `dawg` is missing from the
sources. Spec §4.3: one line `<number> <street name>. <City>, <ST> <ZIP>`; the leading
numeric token is the street number, the text up to the first comma holds the street name and
then the city, a two-letter state and a five-digit zip follow; a missing or ill-shaped
component is a parse error; the result is tagged with an address type. What the spec does
not fix is read from `rules`. -/
def ParseAddress (rules : AddressRules) (raw : String) : Except ParseError StreetAddr :=
  match cutFirst ',' raw.data with
  | none => .error ParseError.noComma
  | some p =>
    match parseHead rules p.1 with
    | .error e => .error e
    | .ok h =>
      match parseTail p.2 with
      | .error e => .error e
      | .ok t =>
        .ok { StreetNum := String.mk h.1, StreetName := String.mk h.2.1,
              Street := String.mk (h.1 ++ ' ' :: h.2.1), CityName := String.mk h.2.2,
              State := String.mk t.1, Zipcode := String.mk t.2, AddrType := rules.tag raw }

/-- Modelled from the spec: the function `StreetAddrFromAddress` of package `dawg` is missing
from the sources. Spec §4.3: the street goes through the number/name splitting routine of
`ParseAddress`; the line one is the street as given; city, state and zip are copied
verbatim. -/
def StreetAddrFromAddress (rules : AddressRules) (a : UserAddress) : StreetAddr :=
  match splitNumber a.Street.data with
  | some p =>
    { StreetNum := String.mk p.1, StreetName := String.mk p.2, Street := a.Street,
      CityName := a.CityName, State := a.Region, Zipcode := a.PostalCode,
      AddrType := rules.tag a.Street }
  | none =>
    { StreetNum := String.mk (rules.unnumbered a.Street.data).1,
      StreetName := String.mk (rules.unnumbered a.Street.data).2, Street := a.Street,
      CityName := a.CityName, State := a.Region, Zipcode := a.PostalCode,
      AddrType := rules.tag a.Street }

/-! ## managedb.go: printing the saved orders -/

/-- How a call ends: it returns an error value (nil included) or it panics on an index that
is out of range. -/
inductive Outcome where
  | returned (err : Option GoError)
  | indexOutOfRange
deriving DecidableEq, Repr

/-- The first loop of `PrintOrders` over the snapshot: `orders` collects the names and, in
verbose mode, `uOrders` the decoded orders; a decode error ends the function. -/
def scanOrders (codec : JSONCodec) (verbose : Bool) :
    List (String × Bytes) → List String → List Order → Except GoError (List String × List Order)
  | [], orders, uOrders => .ok (orders, uOrders)
  | (k, v) :: rest, orders, uOrders =>
    if Contains k OrderPrefix then
      if verbose then
        match (codec.unmarshal v Order.fresh).2 with
        | some err => .error err
        | none =>
          scanOrders codec verbose rest (orders ++ [ReplaceAll k OrderPrefix ""])
            (uOrders ++ [(codec.unmarshal v Order.fresh).1.SetName (ReplaceAll k OrderPrefix "")])
      else scanOrders codec verbose rest (orders ++ [ReplaceAll k OrderPrefix ""]) uOrders
    else scanOrders codec verbose rest orders uOrders

/-- The second loop of `PrintOrders`, from index `i` on. `printOrder` is `out.PrintOrder`
with its colour flag; it yields the text it writes and its error. -/
def printLoop (printOrder : Order → Bool → String × Option GoError) (verbose yesColor : Bool)
    (uOrders : List Order) : Nat → List String → String → Outcome × String
  | _, [], w => (Outcome.returned none, w)
  | i, o :: rest, w =>
    if verbose then
      match uOrders[i]? with
      | none => (Outcome.indexOutOfRange, w)
      | some u =>
        match (printOrder u yesColor).2 with
        | some e => (Outcome.returned (some e), w ++ (printOrder u yesColor).1)
        | none =>
          printLoop printOrder verbose yesColor uOrders (i + 1) rest
            (w ++ (printOrder u yesColor).1)
    else printLoop printOrder verbose yesColor uOrders (i + 1) rest (w ++ "  " ++ o ++ "\n")

/-- The function `PrintOrders(db, w, verbose, color)`; `w` is what the writer holds. -/
def PrintOrders (codec : JSONCodec) (printOrder : Order → Bool → String × Option GoError)
    (db : DataBase) (w : String) (verbose : Bool) (color : String) : Outcome × String :=
  match db.Map.2 with
  | some err => (Outcome.returned (some err), w)
  | none =>
    match scanOrders codec verbose db.Map.1 [] [] with
    | .error err => (Outcome.returned (some err), w)
    | .ok r =>
      if r.1.length < 1 then (Outcome.returned none, w ++ "No orders saved.\n")
      else
        printLoop printOrder verbose (decide (color ≠ "")) r.2 0 r.1
          (w ++ color ++ "Your Orders" ++ (if color ≠ "" then "\x1b[0m" else "") ++ ":\n")

/-! ## configdpz.go -/

/-- The error of `set` for an argument that is not of the form key, equals sign, value. -/
def formatError : GoError :=
  .text "use '<key>=<value>' format (no spaces), use <key>='-' to set as empty"

/-- The loop of `set`. `cfgSet` is `config.Set` acting on the configuration `conf`; the
third component lists the calls made to it, oldest first. -/
def setLoop {σ : Type} (cfgSet : σ → String → String → σ × Option GoError) :
    List String → σ → Option GoError × σ × List (String × String)
  | [], conf => (none, conf, [])
  | arg :: rest, conf =>
    match splitChars '=' [] arg.data with
    | k :: v :: _ =>
      if k = [] ∨ v = [] then (some formatError, conf, [])
      else
        match (cfgSet conf (String.mk k) (if String.mk v = "-" then "" else String.mk v)).2 with
        | some err =>
          (some err, (cfgSet conf (String.mk k) (if String.mk v = "-" then "" else String.mk v)).1,
            [(String.mk k, if String.mk v = "-" then "" else String.mk v)])
        | none =>
          ((setLoop cfgSet rest
              (cfgSet conf (String.mk k) (if String.mk v = "-" then "" else String.mk v)).1).1,
           (setLoop cfgSet rest
              (cfgSet conf (String.mk k) (if String.mk v = "-" then "" else String.mk v)).1).2.1,
           (String.mk k, if String.mk v = "-" then "" else String.mk v) ::
             (setLoop cfgSet rest
               (cfgSet conf (String.mk k) (if String.mk v = "-" then "" else String.mk v)).1).2.2)
    | _ => (some formatError, conf, [])

/-- The function `set(args)`. -/
def set {σ : Type} (cfgSet : σ → String → String → σ × Option GoError) (args : List String)
    (conf : σ) : Option GoError × σ × List (String × String) :=
  if args.length < 1 then (some (.text "no variable given"), conf, [])
  else setLoop cfgSet args conf

/-- The loop of `get`. `cfgGet` is `config.Get` followed by the formatting of `Fprintln`:
`none` for a nil value, else the text printed for the value. -/
def getLoop (cfgGet : String → Option String) : List String → String → Option GoError × String
  | [], out => (none, out)
  | arg :: rest, out =>
    match cfgGet arg with
    | none => (some (.text ("cannot find " ++ arg)), out)
    | some v => getLoop cfgGet rest (out ++ v ++ "\n")

/-- The function `get(args, out)`; `out` is what the writer holds. -/
def get (cfgGet : String → Option String) (args : List String) (out : String) :
    Option GoError × String :=
  if args.length < 1 then (some (.text "no variable given"), out)
  else getLoop cfgGet args out

/-- The character of the decimal digit `n`. -/
def digit (n : Nat) : Char := Char.ofNat (48 + n)

/-! ## JSON text of an order -/

/-- The characters of a JSON string between its quotes: the quote and the backslash are
written behind a backslash, every other character as it is (`encoding/json` writes control
characters and the characters `<`, `>`, `&` as `\u` escapes; the model writes them as they
are). -/
def escape : List Char → List Char
  | [] => []
  | c :: s => if c = '"' ∨ c = '\\' then '\\' :: c :: escape s else c :: escape s

/-- The JSON text of a string. -/
def quote (s : String) : List Char := '"' :: (escape s.data ++ ['"'])

/-- Reads the characters of a JSON string after its opening quote, up to the closing quote;
yields the string read and the text that follows. -/
def readQuoted : List Char → Option (List Char × List Char)
  | [] => none
  | [c] => if c = '"' then some ([], []) else none
  | c :: d :: rest =>
    if c = '"' then some ([], d :: rest)
    else if c = '\\' then
      match readQuoted rest with
      | some p => some (d :: p.1, p.2)
      | none => none
    else
      match readQuoted (d :: rest) with
      | some p => some (c :: p.1, p.2)
      | none => none

/-- Reads a JSON string. -/
def readString (s : List Char) : Option (String × List Char) :=
  match s with
  | [] => none
  | c :: rest =>
    if c = '"' then
      match readQuoted rest with
      | some p => some (String.mk p.1, p.2)
      | none => none
    else none

/-- Reads the literal text `lit`; yields the text that follows. -/
def expect : List Char → List Char → Option (List Char)
  | [], s => some s
  | _ :: _, [] => none
  | c :: lit, d :: s => if c = d then expect lit s else none

/-- The JSON text of a natural number: its decimal digits, most significant first. -/
def natText (n : Nat) : List Char :=
  if n = 0 then ['0'] else (Nat.digits 10 n).reverse.map digit

/-- Reads a JSON number without sign, fraction or exponent. -/
def readNat (s : List Char) : Option (Nat × List Char) :=
  match atoi (s.takeWhile Char.isDigit) with
  | some n => some (n, s.dropWhile Char.isDigit)
  | none => none

/-- The JSON text of an object member: key, colon, value. -/
def field (key : String) (text : List Char) : List Char := quote key ++ ':' :: text

/-- Reads the object member with the given key; `read` reads its value. -/
def readField {α : Type} (key : String) (read : List Char → Option (α × List Char))
    (s : List Char) : Option (α × List Char) :=
  match expect (quote key ++ [':']) s with
  | some rest => read rest
  | none => none

/-- The texts of the items, separated by commas. -/
def joinItems : List (List Char) → List Char
  | [] => []
  | [x] => x
  | x :: y :: rest => x ++ ',' :: joinItems (y :: rest)

/-- The JSON text of an array or object with the given items. -/
def showSeq (opening closing : Char) (items : List (List Char)) : List Char :=
  opening :: (joinItems items ++ [closing])

/-- Reads items separated by commas up to the closing character; `fuel` bounds their
number. -/
def readItems {α : Type} (item : List Char → Option (α × List Char)) (closing : Char) :
    Nat → List Char → Option (List α × List Char)
  | 0, _ => none
  | fuel + 1, s =>
    match item s with
    | none => none
    | some p =>
      match p.2 with
      | [] => none
      | c :: rest =>
        if c = ',' then
          match readItems item closing fuel rest with
          | some q => some (p.1 :: q.1, q.2)
          | none => none
        else if c = closing then some ([p.1], rest)
        else none

/-- Reads an array or object: the opening character, the items, the closing character. -/
def readSeq {α : Type} (item : List Char → Option (α × List Char)) (opening closing : Char)
    (s : List Char) : Option (List α × List Char) :=
  match s with
  | [] => none
  | [_] => none
  | c :: d :: rest =>
    if c = opening then
      if d = closing then some ([], rest) else readItems item closing (d :: rest).length (d :: rest)
    else none

/-- The member `"key":"value"` of an option of a product. -/
def showPair (p : String × String) : List Char := quote p.1 ++ ':' :: quote p.2

/-- Reads a member `"key":"value"`. -/
def readPair (s : List Char) : Option ((String × String) × List Char) :=
  match readString s with
  | none => none
  | some k =>
    match expect [':'] k.2 with
    | none => none
    | some s2 =>
      match readString s2 with
      | none => none
      | some v => some ((k.1, v.1), v.2)

/-- The member of the option mapping of a product: the component code with its object of
portions. -/
def showOpt (p : String × List (String × String)) : List Char :=
  quote p.1 ++ ':' :: showSeq '{' '}' (p.2.map showPair)

/-- Reads a member of the option mapping of a product. -/
def readOpt (s : List Char) : Option ((String × List (String × String)) × List Char) :=
  match readString s with
  | none => none
  | some k =>
    match expect [':'] k.2 with
    | none => none
    | some s2 =>
      match readSeq readPair '{' '}' s2 with
      | none => none
      | some v => some ((k.1, v.1), v.2)

/-- The JSON object of a product. -/
def showProduct (p : OrderProduct) : List Char :=
  '{' :: (field "Code" (quote p.Code) ++ ',' ::
    (field "Options" (showSeq '{' '}' (p.Opts.map showOpt)) ++ ',' ::
      (field "Qty" (natText p.Qty) ++ ['}'])))

/-- Reads the JSON object of a product. -/
def readProduct (s : List Char) : Option (OrderProduct × List Char) :=
  match expect ['{'] s with
  | none => none
  | some s1 =>
    match readField "Code" readString s1 with
    | none => none
    | some code =>
      match expect [','] code.2 with
      | none => none
      | some s2 =>
        match readField "Options" (readSeq readOpt '{' '}') s2 with
        | none => none
        | some opts =>
          match expect [','] opts.2 with
          | none => none
          | some s3 =>
            match readField "Qty" readNat s3 with
            | none => none
            | some qty =>
              match expect ['}'] qty.2 with
              | none => none
              | some s4 => some ({ Code := code.1, Opts := opts.1, Qty := qty.1 }, s4)

/-- The JSON object of an address. -/
def showAddr (a : StreetAddr) : List Char :=
  '{' :: (field "StreetNum" (quote a.StreetNum) ++ ',' ::
    (field "StreetName" (quote a.StreetName) ++ ',' ::
      (field "Street" (quote a.Street) ++ ',' ::
        (field "CityName" (quote a.CityName) ++ ',' ::
          (field "State" (quote a.State) ++ ',' ::
            (field "Zipcode" (quote a.Zipcode) ++ ',' ::
              (field "AddrType" (quote a.AddrType) ++ ['}'])))))))

/-- Reads a member whose value is a string, and the character that follows it. -/
def readStringField (key : String) (next : Char) (s : List Char) :
    Option (String × List Char) :=
  match readField key readString s with
  | none => none
  | some v =>
    match expect [next] v.2 with
    | none => none
    | some rest => some (v.1, rest)

/-- Reads the JSON object of an address. -/
def readAddr (s : List Char) : Option (StreetAddr × List Char) :=
  match expect ['{'] s with
  | none => none
  | some s0 =>
    match readStringField "StreetNum" ',' s0 with
    | none => none
    | some num =>
      match readStringField "StreetName" ',' num.2 with
      | none => none
      | some name =>
        match readStringField "Street" ',' name.2 with
        | none => none
        | some street =>
          match readStringField "CityName" ',' street.2 with
          | none => none
          | some city =>
            match readStringField "State" ',' city.2 with
            | none => none
            | some state =>
              match readStringField "Zipcode" ',' state.2 with
              | none => none
              | some zip =>
                match readStringField "AddrType" '}' zip.2 with
                | none => none
                | some kind =>
                  some ({ StreetNum := num.1, StreetName := name.1, Street := street.1,
                          CityName := city.1, State := state.1, Zipcode := zip.1,
                          AddrType := kind.1 }, kind.2)

/-- The JSON text of the address of an order: `null` for a nil pointer. -/
def showAddrPtr : Option StreetAddr → List Char
  | none => ['n', 'u', 'l', 'l']
  | some a => showAddr a

/-- Reads the address of an order. -/
def readAddrPtr (s : List Char) : Option (Option StreetAddr × List Char) :=
  match expect ['n', 'u', 'l', 'l'] s with
  | some rest => some (none, rest)
  | none =>
    match readAddr s with
    | some a => some (some a.1, a.2)
    | none => none

/-- The JSON text that `json.Marshal` writes for an order: one object whose members are the
fields of the order in their order of declaration, under their Go names, without blanks; the
name of the order is not written. -/
def showOrder (o : Order) : List Char :=
  '{' :: (field "LanguageCode" (quote o.LanguageCode) ++ ',' ::
    (field "ServiceMethod" (quote o.ServiceMethod) ++ ',' ::
      (field "Products" (showSeq '[' ']' (o.Products.map showProduct)) ++ ',' ::
        (field "StoreID" (quote o.StoreID) ++ ',' ::
          (field "OrderID" (quote o.OrderID) ++ ',' ::
            (field "Address" (showAddrPtr o.Address) ++ ['}']))))))

/-- Reads the JSON text of an order into the order `base`, whose name is kept. -/
def readOrder (base : Order) (s : List Char) : Option (Order × List Char) :=
  match expect ['{'] s with
  | none => none
  | some s0 =>
    match readStringField "LanguageCode" ',' s0 with
    | none => none
    | some lang =>
      match readStringField "ServiceMethod" ',' lang.2 with
      | none => none
      | some service =>
        match readField "Products" (readSeq readProduct '[' ']') service.2 with
        | none => none
        | some products =>
          match expect [','] products.2 with
          | none => none
          | some s1 =>
            match readStringField "StoreID" ',' s1 with
            | none => none
            | some store =>
              match readStringField "OrderID" ',' store.2 with
              | none => none
              | some oid =>
                match readField "Address" readAddrPtr oid.2 with
                | none => none
                | some addr =>
                  match expect ['}'] addr.2 with
                  | none => none
                  | some rest =>
                    some ({ base with LanguageCode := lang.1, ServiceMethod := service.1,
                                      Products := products.1, StoreID := store.1,
                                      OrderID := oid.1, Address := addr.1 }, rest)

/-- Modelled from the spec: `encoding/json` as `managedb.go` uses it on `dawg.Order`, whose
declaration is missing from the sources. Spec §4.5: saved orders are serialized as JSON.
`marshal` writes the text of `showOrder`; `unmarshal` reads a text of that layout into the
given order and reports any other text as a decode error, leaving the order as it was. -/
def jsonCodec : JSONCodec :=
  { marshal := fun o => .ok (String.mk (showOrder o)),
    unmarshal := fun raw base =>
      match readOrder base raw.data with
      | some (o, []) => (o, none)
      | _ => (base, some (.text "json: cannot unmarshal into Go value of type dawg.Order")) }

/-! ## Sample values -/

/-- The delivery address of the test-suite. -/
def sampleAddress : StreetAddr :=
  { StreetNum := "1600", StreetName := "Pennsylvania Ave.", Street := "1600 Pennsylvania Ave.",
    CityName := "Washington", State := "DC", Zipcode := "20500", AddrType := "House" }

/-- The order built by `TestDominosErrors`, saved under the name `dinner`. -/
def sampleOrder : Order :=
  { LanguageCode := "en", ServiceMethod := "Delivery",
    Products := [{ Code := "12SCREEN", Opts := [("C", [("1/1", "1")]), ("P", [("1/1", "1.5")])],
                   Qty := 1 }],
    StoreID := "4336", OrderID := "", Address := some sampleAddress, OrderName := "dinner" }

/-- A serialised form standing for the JSON document of `sampleOrder`. -/
def sampleDoc : Bytes := "Delivery;12SCREEN,C=1/1:1,P=1/1:1.5,1;4336;1600 Pennsylvania Ave."

/-- A codec that knows one document: it writes `doc` for an order with the content of
`content` (the name is not serialised) and reads `doc` back into that content. -/
def docCodec (doc : Bytes) (content : Order) : JSONCodec :=
  { marshal := fun o =>
      if o.SetName "" = content.SetName "" then .ok doc
      else .error (.text "json: unsupported value"),
    unmarshal := fun raw base =>
      if raw = doc then (content.SetName base.OrderName, none)
      else (base, some (.text "invalid character")) }

/-- A working database that already holds a cached menu and another order. -/
def sampleDB : DataBase :=
  { bucket := [("menu", "pizza"), ("user_order_lunch", "old")], fault := none,
    rejects := fun _ _ => none }

/-- A database whose storage cannot be opened. -/
def brokenDB : DataBase :=
  { bucket := [], fault := some (.text "database not open"), rejects := fun _ _ => none }

/-- The state before a command runs: nothing written, nothing called. -/
def sampleWorld : World := { db := sampleDB, out := "", trace := [] }

/-- The state before a command runs on the broken database. -/
def brokenWorld : World := { db := brokenDB, out := "", trace := [] }

/-- A vendor error with the given status and no items. -/
def vendorError (status : Int) : GoError :=
  .dominos { Status := status, StatusItems := [], Order := { Status := status, StatusItems := [] } }

/-- An empty working database. -/
def emptyDB : DataBase := { bucket := [], fault := none, rejects := fun _ _ => none }

/-- The state before a command runs on the empty database. -/
def emptyWorld : World := { db := emptyDB, out := "", trace := [] }

/-- The sample order under a name that itself contains the text `user_order_`. -/
def markedOrder : Order := sampleOrder.SetName "a user_order_b"

/-- The envelope of `TestDominosErrorFailure`, as decoded from its JSON text. -/
def testEnvelope : DominosError :=
  { Status := -1,
    StatusItems := [{ Code := "Failure", Message := "test msg", PulseCode := 0, PulseText := "" }],
    Order :=
      { Status := -1,
        StatusItems :=
          [{ Code := "Failure", Message := "test order msg", PulseCode := 0, PulseText := "" },
           { Code := "SomeOtherCode", Message := "", PulseCode := 0, PulseText := "" },
           { Code := "", Message := "", PulseCode := 1,
             PulseText := "this isn't the real error format" }] } }

/-- The configuration of the test-suite as a list of keys and values. -/
def testConfig : List (String × String) :=
  [("name", "joe"), ("email", "nojoe@mail.com"), ("phone", "1231231234"),
   ("service", "Carryout")]

/-- A `config.Get` over a list of keys and values. -/
def listGet (conf : List (String × String)) (key : String) : Option String :=
  lookupKey key conf

/-- A `config.Set` over a list of keys and values: only an existing key can be set. -/
def listSet (conf : List (String × String)) (key val : String) :
    List (String × String) × Option GoError :=
  match lookupKey key conf with
  | some _ => (upsert key val conf, none)
  | none => (conf, some (.text ("cannot find key " ++ key)))

/-- An `out.PrintOrder` that writes one line with the name of the order. -/
def namePrinter (o : Order) (_color : Bool) : String × Option GoError :=
  (o.OrderName ++ "\n", none)

/-- The text before and the text after the last blank. -/
def cutLastBlank : List Char → Option (List Char × List Char)
  | [] => none
  | c :: rest =>
    match cutLastBlank rest with
    | some p => some (c :: p.1, p.2)
    | none => if c = ' ' then some ([], rest) else none

/-- One way of filling what the spec leaves open: the city is the last word before the comma,
a street without number has an empty number, and every address is tagged `House`. -/
def lastWordRules : AddressRules :=
  { boundary := fun text =>
      match cutLastBlank text with
      | some p => .ok p
      | none => .error ParseError.noCity,
    unnumbered := fun street => ([], street),
    tag := fun _ => "House" }

/-! ## Lemmas on the cache -/

theorem lookupKey_upsert_self (key : String) (val : Bytes) (l : List (String × Bytes)) :
    lookupKey key (upsert key val l) = some val := by
  induction l with
  | nil => simp [upsert, lookupKey]
  | cons kv rest ih =>
    obtain ⟨k, v⟩ := kv
    by_cases h : k = key
    · simp [upsert, lookupKey, h]
    · simp [upsert, lookupKey, h, ih]

theorem lookupKey_upsert_other (key k' : String) (val : Bytes) (l : List (String × Bytes))
    (hne : k' ≠ key) : lookupKey k' (upsert key val l) = lookupKey k' l := by
  induction l with
  | nil => simp [upsert, lookupKey, Ne.symm hne]
  | cons kv rest ih =>
    obtain ⟨k, v⟩ := kv
    by_cases h : k = key
    · subst h
      simp [upsert, lookupKey, Ne.symm hne]
    · by_cases h2 : k = k'
      · subst h2
        simp [upsert, lookupKey, h]
      · simp [upsert, lookupKey, h, h2, ih]

theorem Put_ok (db : DataBase) (key : String) (val : Bytes) (h : (db.Put key val).2 = none) :
    db.Put key val = ({ db with bucket := upsert key val db.bucket }, none) ∧ db.fault = none := by
  unfold DataBase.Put at h ⊢
  cases hf : db.fault with
  | some e => simp [hf] at h
  | none =>
    cases hr : db.rejects key val with
    | some e => simp [hf, hr] at h
    | none => simp

theorem Put_fail (db : DataBase) (key : String) (val : Bytes) (e : GoError)
    (h : (db.Put key val).2 = some e) : db.Put key val = (db, some e) := by
  unfold DataBase.Put at h ⊢
  cases hf : db.fault with
  | some e' => simpa [hf] using h
  | none =>
    cases hr : db.rejects key val with
    | some e' => simpa [hf, hr] using h
    | none => simp [hf, hr] at h

theorem SaveOrder_ok (codec : JSONCodec) (validate : Order → Option GoError) (o : Order)
    (s : World) (raw : Bytes) (hm : codec.marshal o = .ok raw)
    (hp : (s.db.Put (OrderPrefix ++ o.Name) raw).2 = none) :
    SaveOrder codec validate o s =
      (if IsFailure (validate o) then validate o else none,
       { db := { s.db with bucket := upsert (OrderPrefix ++ o.Name) raw s.db.bucket },
         out := s.out ++ "order successfully updated.\n",
         trace := s.trace ++ [Event.put (OrderPrefix ++ o.Name) raw] ++
           [Event.write "order successfully updated.\n"] ++ [Event.validate o] }) := by
  have h := (Put_ok s.db _ raw hp).1
  unfold SaveOrder
  simp only [hm, h]
  split <;> rfl

theorem Pair_text_ne_notFound (a b : GoError) (name : String) :
    ("error 1. " ++ a.Error ++ "\nerror 2. " ++ b.Error) ≠ "cannot find order " ++ name := by
  intro h
  have h2 := congrArg String.data h
  simp only [String.data_append] at h2
  have h3 := congrArg List.head? h2
  simp [List.head?_append] at h3

/-! ## Saving and loading orders -/

/-- C1. `SaveOrder` never rolls back the local save: when the order serialises to `raw` and
`Put` succeeds, the store after `SaveOrder` holds `raw` under `"user_order_" + o.Name()` and
every other key holds what it held before, whatever `ValidateOrder` answers. -/
theorem SaveOrder_keeps_local_save (codec : JSONCodec) (validate : Order → Option GoError)
    (o : Order) (s : World) (raw : Bytes) (hm : codec.marshal o = .ok raw)
    (hp : (s.db.Put (OrderPrefix ++ o.Name) raw).2 = none) :
    lookupKey ("user_order_" ++ o.Name) (SaveOrder codec validate o s).2.db.bucket = some raw ∧
    ∀ k, k ≠ "user_order_" ++ o.Name →
      lookupKey k (SaveOrder codec validate o s).2.db.bucket = lookupKey k s.db.bucket := by
  rw [SaveOrder_ok codec validate o s raw hm hp]
  exact ⟨lookupKey_upsert_self _ _ _, fun k hk => lookupKey_upsert_other _ _ _ _ hk⟩

/-- Witness of C1: the sample order saved into the sample database while the vendor answers
with a failure. -/
theorem SaveOrder_keeps_local_save_witness :
    (docCodec sampleDoc sampleOrder).marshal sampleOrder = .ok sampleDoc ∧
    (sampleWorld.db.Put (OrderPrefix ++ sampleOrder.Name) sampleDoc).2 = none ∧
    lookupKey ("user_order_" ++ sampleOrder.Name)
      (SaveOrder (docCodec sampleDoc sampleOrder) (fun _ => some (vendorError (-1)))
        sampleOrder sampleWorld).2.db.bucket = some sampleDoc ∧
    ∀ k, k ≠ "user_order_" ++ sampleOrder.Name →
      lookupKey k (SaveOrder (docCodec sampleDoc sampleOrder) (fun _ => some (vendorError (-1)))
        sampleOrder sampleWorld).2.db.bucket = lookupKey k sampleWorld.db.bucket :=
  ⟨rfl, by decide,
   SaveOrder_keeps_local_save (docCodec sampleDoc sampleOrder) (fun _ => some (vendorError (-1)))
     sampleOrder sampleWorld sampleDoc rfl (by decide)⟩

/-- C3. When the local save succeeds, a vendor error of Failure severity returned by
`ValidateOrder` is what `SaveOrder` returns, and a nil answer of `ValidateOrder` makes
`SaveOrder` return nil. -/
theorem SaveOrder_reports_failure (codec : JSONCodec) (validate : Order → Option GoError)
    (o : Order) (s : World) (raw : Bytes) (hm : codec.marshal o = .ok raw)
    (hp : (s.db.Put (OrderPrefix ++ o.Name) raw).2 = none) :
    (∀ e : DominosError, validate o = some (.dominos e) → e.Status < 0 →
      (SaveOrder codec validate o s).1 = some (.dominos e)) ∧
    (validate o = none → (SaveOrder codec validate o s).1 = none) := by
  rw [SaveOrder_ok codec validate o s raw hm hp]
  constructor
  · intro e he hs
    simp [he, IsFailure, hs]
  · intro he
    simp [he, IsFailure]

/-- Witness of C3: the vendor rejects the sample order with status -1. -/
theorem SaveOrder_reports_failure_witness :
    (SaveOrder (docCodec sampleDoc sampleOrder) (fun _ => some (vendorError (-1)))
      sampleOrder sampleWorld).1 = some (vendorError (-1)) :=
  (SaveOrder_reports_failure (docCodec sampleDoc sampleOrder)
    (fun _ => some (vendorError (-1))) sampleOrder sampleWorld sampleDoc rfl (by decide)).1
    _ rfl (by decide)

/-- Counterexample to C4: the vendor answers the sample order with a Warning (status 1), the
local save succeeds, and `SaveOrder` returns nil instead of the warning. -/
theorem SaveOrder_warning_not_returned :
    IsWarning (some (vendorError 1)) = true ∧
    (sampleWorld.db.Put (OrderPrefix ++ sampleOrder.Name) sampleDoc).2 = none ∧
    (SaveOrder (docCodec sampleDoc sampleOrder) (fun _ => some (vendorError 1))
      sampleOrder sampleWorld).1 = none ∧
    (SaveOrder (docCodec sampleDoc sampleOrder) (fun _ => some (vendorError 1))
      sampleOrder sampleWorld).1 ≠ some (vendorError 1) := by
  refine ⟨by decide, by decide, ?_, ?_⟩
  · rw [SaveOrder_ok _ _ _ _ sampleDoc rfl (by decide)]
    rfl
  · rw [SaveOrder_ok _ _ _ _ sampleDoc rfl (by decide)]
    decide

/-- C4, amended. When the local save succeeds and `ValidateOrder` returns a vendor error of
Warning severity, `SaveOrder` returns nil: the warning is not handed to the caller, the
operation is not blocked and the saved order is kept. -/
theorem SaveOrder_drops_warning (codec : JSONCodec) (validate : Order → Option GoError)
    (o : Order) (s : World) (raw : Bytes) (e : DominosError)
    (hm : codec.marshal o = .ok raw)
    (hp : (s.db.Put (OrderPrefix ++ o.Name) raw).2 = none)
    (hv : validate o = some (.dominos e)) (hw : e.Status = 1) :
    IsWarning (validate o) = true ∧
    (SaveOrder codec validate o s).1 = none ∧
    lookupKey (OrderPrefix ++ o.Name) (SaveOrder codec validate o s).2.db.bucket
      = some raw := by
  rw [SaveOrder_ok codec validate o s raw hm hp]
  refine ⟨by simp [hv, IsWarning, hw], by simp [hv, IsFailure, hw], ?_⟩
  exact lookupKey_upsert_self _ _ _

/-- Witness of the amended C4: the vendor answers the sample order with status 1. -/
theorem SaveOrder_drops_warning_witness :
    (SaveOrder (docCodec sampleDoc sampleOrder) (fun _ => some (vendorError 1))
      sampleOrder sampleWorld).1 = none :=
  (SaveOrder_drops_warning (docCodec sampleDoc sampleOrder) (fun _ => some (vendorError 1))
    sampleOrder sampleWorld sampleDoc _ rfl (by decide) rfl rfl).2.1

/-- C5. `SaveOrder` persists before it validates. When `Put` fails, `SaveOrder` returns the
error of `Put`, nothing is written to the writer and the only call made is the `Put`:
`ValidateOrder` is not called. When `Put` succeeds, the line `order successfully updated.` is
written once, after the `Put` and before the one call of `ValidateOrder`. -/
theorem SaveOrder_persists_before_validating (codec : JSONCodec)
    (validate : Order → Option GoError) (o : Order) (s : World) (raw : Bytes)
    (hm : codec.marshal o = .ok raw) :
    (∀ e, (s.db.Put (OrderPrefix ++ o.Name) raw).2 = some e →
      (SaveOrder codec validate o s).1 = some e ∧
      (SaveOrder codec validate o s).2.out = s.out ∧
      (SaveOrder codec validate o s).2.trace
        = s.trace ++ [Event.put (OrderPrefix ++ o.Name) raw]) ∧
    ((s.db.Put (OrderPrefix ++ o.Name) raw).2 = none →
      (SaveOrder codec validate o s).2.out = s.out ++ "order successfully updated.\n" ∧
      (SaveOrder codec validate o s).2.trace
        = s.trace ++ [Event.put (OrderPrefix ++ o.Name) raw,
            Event.write "order successfully updated.\n", Event.validate o]) := by
  constructor
  · intro e he
    have h := Put_fail s.db _ raw e he
    unfold SaveOrder
    simp only [hm, h]
    exact ⟨trivial, trivial, trivial⟩
  · intro hp
    rw [SaveOrder_ok codec validate o s raw hm hp]
    simp

/-- Witness of C5: saving the sample order into a database that cannot be opened. -/
theorem SaveOrder_persists_before_validating_witness :
    (SaveOrder (docCodec sampleDoc sampleOrder) (fun _ => none) sampleOrder brokenWorld).1
      = some (.text "database not open") ∧
    (SaveOrder (docCodec sampleDoc sampleOrder) (fun _ => none) sampleOrder brokenWorld).2.out
      = brokenWorld.out ∧
    (SaveOrder (docCodec sampleDoc sampleOrder) (fun _ => none) sampleOrder brokenWorld).2.trace
      = brokenWorld.trace ++ [Event.put (OrderPrefix ++ sampleOrder.Name) sampleDoc] :=
  (SaveOrder_persists_before_validating (docCodec sampleDoc sampleOrder) (fun _ => none)
    sampleOrder brokenWorld sampleDoc rfl).1 (.text "database not open") rfl

/-- C6. `GetOrder` reports an unknown order name. When `Get` yields nil bytes for the key
`"user_order_" + name`, `GetOrder` returns a nil order and the error with text
`cannot find order <name>`. When the key holds bytes, `GetOrder` returns the order decoded
from those bytes with the paired errors of `Get` and of the decoder, its answer depends on
the store only through that one key, and it reports `cannot find order <name>` only if `Get`
or the decoder did. -/
theorem GetOrder_unknown_name (codec : JSONCodec) (name : String)
    (get : String → Option Bytes × Option GoError) :
    ((get ("user_order_" ++ name)).1 = none →
      GetOrder codec name get = (none, some (.text ("cannot find order " ++ name)))) ∧
    (∀ raw, (get ("user_order_" ++ name)).1 = some raw →
      GetOrder codec name get
        = (some (codec.unmarshal raw (Order.fresh.SetName name)).1,
           Pair (get ("user_order_" ++ name)).2
             (codec.unmarshal raw (Order.fresh.SetName name)).2) ∧
      (GetOrder codec name get).1 ≠ none ∧
      ((∀ e, (get ("user_order_" ++ name)).2 = some e →
          e.Error ≠ "cannot find order " ++ name) →
        (∀ e, (codec.unmarshal raw (Order.fresh.SetName name)).2 = some e →
          e.Error ≠ "cannot find order " ++ name) →
        ∀ e, (GetOrder codec name get).2 = some e → e.Error ≠ "cannot find order " ++ name)) ∧
    (∀ get' : String → Option Bytes × Option GoError,
      get' ("user_order_" ++ name) = get ("user_order_" ++ name) →
      GetOrder codec name get' = GetOrder codec name get) := by
  have hk : OrderPrefix ++ name = "user_order_" ++ name := rfl
  refine ⟨?_, ?_, ?_⟩
  · intro h
    simp only [GetOrder, hk, h]
  · intro raw h
    have hg : GetOrder codec name get
        = (some (codec.unmarshal raw (Order.fresh.SetName name)).1,
           Pair (get ("user_order_" ++ name)).2
             (codec.unmarshal raw (Order.fresh.SetName name)).2) := by
      simp only [GetOrder, hk, h]
    refine ⟨hg, by simp [hg], ?_⟩
    intro h1 h2 e he
    rw [hg] at he
    simp only at he
    cases ha : (get ("user_order_" ++ name)).2 with
    | none =>
      cases hb : (codec.unmarshal raw (Order.fresh.SetName name)).2 with
      | none => simp [ha, hb, Pair] at he
      | some b =>
        simp only [ha, hb, Pair, Option.some.injEq] at he
        subst he
        exact h2 b hb
    | some a =>
      cases hb : (codec.unmarshal raw (Order.fresh.SetName name)).2 with
      | none =>
        simp only [ha, hb, Pair, Option.some.injEq] at he
        subst he
        exact h1 a ha
      | some b =>
        simp only [ha, hb, Pair, Option.some.injEq] at he
        subst he
        exact Pair_text_ne_notFound a b name
  · intro get' h
    simp only [GetOrder, hk, h]

/-- Witness of C6: the sample database has no order named `breakfast`. -/
theorem GetOrder_unknown_name_witness :
    GetOrder (docCodec sampleDoc sampleOrder) "breakfast" sampleDB.Get
      = (none, some (.text "cannot find order breakfast")) :=
  (GetOrder_unknown_name (docCodec sampleDoc sampleOrder) "breakfast" sampleDB.Get).1
    (by decide)

/-- C7, evaluated at an order whose name contains the text `user_order_`. `SaveOrder` stores
the order named `a user_order_b` under the key `user_order_a user_order_b`; `ListOrders` on
the resulting store lists the single name `a b`, under which no order is stored, so that
`GetOrder` cannot find it, and does not list the name `a user_order_b` of the stored
order. -/
theorem ListOrders_name_containing_marker :
    (SaveOrder (docCodec sampleDoc sampleOrder) (fun _ => none) markedOrder emptyWorld).2.db.Map.1
      = [("user_order_a user_order_b", sampleDoc)] ∧
    ListOrders (SaveOrder (docCodec sampleDoc sampleOrder) (fun _ => none) markedOrder
      emptyWorld).2.db = ["a b"] ∧
    GetOrder (docCodec sampleDoc sampleOrder) "a b"
      (SaveOrder (docCodec sampleDoc sampleOrder) (fun _ => none) markedOrder
        emptyWorld).2.db.Get = (none, some (.text "cannot find order a b")) ∧
    (GetOrder (docCodec sampleDoc sampleOrder) "a user_order_b"
      (SaveOrder (docCodec sampleDoc sampleOrder) (fun _ => none) markedOrder
        emptyWorld).2.db.Get).2 = none := by
  rw [SaveOrder_ok _ _ _ _ sampleDoc rfl (by decide)]
  refine ⟨by decide, by decide, by decide, by decide⟩

/-! ## Severity -/

/-- C9. The severity predicates follow the envelope status and treat nil as Ok:
`IsOk(nil)` holds, `IsWarning(nil)` and `IsFailure(nil)` do not; an envelope with
`Status < 0` decodes to an error for which only `IsFailure` holds, one with `Status = 1` to
an error for which only `IsWarning` holds, one with `Status = 0` to no error; and no value
satisfies two of the three predicates. -/
theorem severity_predicates (e : DominosError) (err : Option GoError) :
    (IsOk none = true ∧ IsWarning none = false ∧ IsFailure none = false) ∧
    (e.Status < 0 →
      dominosErr (.envelope e) = some (.dominos e) ∧
      IsFailure (dominosErr (.envelope e)) = true ∧
      IsOk (dominosErr (.envelope e)) = false ∧
      IsWarning (dominosErr (.envelope e)) = false) ∧
    (e.Status = 1 →
      dominosErr (.envelope e) = some (.dominos e) ∧
      IsWarning (dominosErr (.envelope e)) = true ∧
      IsOk (dominosErr (.envelope e)) = false ∧
      IsFailure (dominosErr (.envelope e)) = false) ∧
    (e.Status = 0 → dominosErr (.envelope e) = none) ∧
    ¬ (IsOk err = true ∧ IsWarning err = true) ∧
    ¬ (IsOk err = true ∧ IsFailure err = true) ∧
    ¬ (IsWarning err = true ∧ IsFailure err = true) := by
  refine ⟨⟨rfl, rfl, rfl⟩, ?_, ?_, ?_, ?_, ?_, ?_⟩
  · intro h
    have h0 : e.Status ≠ 0 := by omega
    have h1 : e.Status ≠ 1 := by omega
    simp [dominosErr, h0, h1, IsFailure, IsOk, IsWarning, h]
  · intro h
    simp [dominosErr, IsFailure, IsOk, IsWarning, h]
  · intro h
    simp [dominosErr, h]
  · rcases err with _ | ⟨_ | d⟩ <;> simp [IsOk, IsWarning]
    omega
  · rcases err with _ | ⟨_ | d⟩ <;> simp [IsOk, IsFailure]
    omega
  · rcases err with _ | ⟨_ | d⟩ <;> simp [IsWarning, IsFailure]
    omega

/-- Witness of C9: the envelope of the test-suite has status -1. -/
theorem severity_predicates_witness :
    testEnvelope.Status < 0 ∧
    dominosErr (.envelope testEnvelope) = some (.dominos testEnvelope) ∧
    IsFailure (dominosErr (.envelope testEnvelope)) = true ∧
    IsOk (dominosErr (.envelope testEnvelope)) = false ∧
    IsWarning (dominosErr (.envelope testEnvelope)) = false :=
  ⟨by decide, (severity_predicates testEnvelope none).2.1 (by decide)⟩

/-! ## Card expiration dates -/

theorem digit_spec (n : Nat) (h : n < 10) :
    (digit n).isDigit = true ∧ (digit n).toNat - 48 = n ∧ digit n ≠ '/' := by
  interval_cases n <;> decide

theorem splitChars_no_sep (sep : Char) (l cur : List Char) (h : sep ∉ l) :
    splitChars sep cur l = [cur.reverse ++ l] := by
  induction l generalizing cur with
  | nil => simp [splitChars]
  | cons c rest ih =>
    have hc : c ≠ sep := fun hc => h (by simp [hc])
    have hr : sep ∉ rest := fun hr => h (by simp [hr])
    simp [splitChars, hc, ih (c :: cur) hr]

theorem digitsValue_isDigit (l : List Char) (acc v : Nat) (h : digitsValue acc l = some v) :
    ∀ c ∈ l, c.isDigit = true := by
  induction l generalizing acc with
  | nil => simp
  | cons c rest ih =>
    by_cases hc : c.isDigit = true
    · simp only [digitsValue, hc, if_true] at h
      intro x hx
      rcases List.mem_cons.mp hx with rfl | hx
      · exact hc
      · exact ih _ h x hx
    · simp [digitsValue, hc] at h

theorem atoi_isDigit (l : List Char) (v : Nat) (h : atoi l = some v) :
    ∀ c ∈ l, c.isDigit = true := by
  cases l with
  | nil => simp
  | cons c rest => exact digitsValue_isDigit _ 0 v h

theorem dateOfParts_not_digits (m y : List Char)
    (h : ¬ ((∀ c ∈ m, c.isDigit = true) ∧ ∀ c ∈ yearText y, c.isDigit = true)) :
    dateOfParts m y = badDate := by
  unfold dateOfParts
  cases hm : atoi m with
  | none => rfl
  | some a =>
    cases hy : atoi (yearText y) with
    | none => rfl
    | some b => exact absurd ⟨atoi_isDigit m a hm, atoi_isDigit _ b hy⟩ h

/-- C10. `parseDate` accepts `MM/YY`, `MMYY`, `MM/YYYY`, `M/YY` and `M/YYYY`: for decimal
digits `a b c d e f` the two-digit-year forms give month `ab` (or `b`) and year `2000 + cd`,
the four-digit-year forms give year `cdef`; a string without separator that is not exactly
four digits gives the sentinel `(-1, -1)`; and the literal table of `TestParseDate` holds. -/
theorem parseDate_forms (a b c d e f : Nat) (ha : a < 10) (hb : b < 10) (hc : c < 10)
    (hd : d < 10) (he : e < 10) (hf : f < 10) (s : String) :
    parseDate (String.mk [digit a, digit b, '/', digit c, digit d])
      = (((10 * a + b : Nat) : Int), ((2000 + (10 * c + d) : Nat) : Int)) ∧
    parseDate (String.mk [digit a, digit b, digit c, digit d])
      = (((10 * a + b : Nat) : Int), ((2000 + (10 * c + d) : Nat) : Int)) ∧
    parseDate (String.mk [digit a, digit b, '/', digit c, digit d, digit e, digit f])
      = (((10 * a + b : Nat) : Int), ((1000 * c + 100 * d + 10 * e + f : Nat) : Int)) ∧
    parseDate (String.mk [digit b, '/', digit c, digit d])
      = (((b : Nat) : Int), ((2000 + (10 * c + d) : Nat) : Int)) ∧
    parseDate (String.mk [digit b, '/', digit c, digit d, digit e, digit f])
      = (((b : Nat) : Int), ((1000 * c + 100 * d + 10 * e + f : Nat) : Int)) ∧
    ('/' ∉ s.data → ¬ (s.data.length = 4 ∧ ∀ ch ∈ s.data, ch.isDigit = true) →
      parseDate s = (-1, -1)) ∧
    (parseDate "01/25" = (1, 2025) ∧ parseDate "0125" = (1, 2025) ∧
     parseDate "01/2025" = (1, 2025) ∧ parseDate "1/25" = (1, 2025) ∧
     parseDate "1/2025" = (1, 2025) ∧ parseDate "11/02" = (11, 2002) ∧
     parseDate "11/2002" = (11, 2002) ∧ parseDate "012025" = (-1, -1) ∧
     parseDate "11/2" = (11, 202)) := by
  obtain ⟨a1, a2, a3⟩ := digit_spec a ha
  obtain ⟨b1, b2, b3⟩ := digit_spec b hb
  obtain ⟨c1, c2, c3⟩ := digit_spec c hc
  obtain ⟨d1, d2, d3⟩ := digit_spec d hd
  obtain ⟨e1, e2, e3⟩ := digit_spec e he
  obtain ⟨f1, f2, f3⟩ := digit_spec f hf
  refine ⟨?_, ?_, ?_, ?_, ?_, ?_, by decide⟩
  · simp [parseDate, splitChars, dateOfParts, atoi, digitsValue, yearText, a1, a2, a3, b1, b2,
      b3, c1, c2, c3, d1, d2, d3]
    omega
  · simp [parseDate, splitChars, dateOfParts, atoi, digitsValue, yearText, a1, a2, a3, b1, b2,
      b3, c1, c2, c3, d1, d2, d3]
    omega
  · simp [parseDate, splitChars, dateOfParts, atoi, digitsValue, yearText, a1, a2, a3, b1, b2,
      b3, c1, c2, c3, d1, d2, d3, e1, e2, e3, f1, f2, f3]
    omega
  · simp [parseDate, splitChars, dateOfParts, atoi, digitsValue, yearText, b1, b2,
      b3, c1, c2, c3, d1, d2, d3]
    omega
  · simp [parseDate, splitChars, dateOfParts, atoi, digitsValue, yearText, b1, b2,
      b3, c1, c2, c3, d1, d2, d3, e1, e2, e3, f1, f2, f3]
    omega
  · intro hs hn
    have hsplit := splitChars_no_sep '/' s.data [] hs
    simp only [List.reverse_nil, List.nil_append] at hsplit
    simp only [parseDate, hsplit]
    by_cases hl : s.data.length = 4
    · simp only [hl, if_true]
      have hbad := dateOfParts_not_digits (s.data.take 2) (s.data.drop 2) (by
        rintro ⟨h1, h2⟩
        apply hn
        refine ⟨hl, ?_⟩
        intro ch hch
        rw [← List.take_append_drop 2 s.data] at hch
        rcases List.mem_append.mp hch with h | h
        · exact h1 ch h
        · apply h2 ch
          have hlen : (s.data.drop 2).length < 4 := by
            rw [List.length_drop, hl]
            decide
          have hy : yearText (s.data.drop 2) = '2' :: '0' :: s.data.drop 2 := by
            unfold yearText
            rw [if_pos hlen]
          rw [hy]
          exact List.mem_cons_of_mem _ (List.mem_cons_of_mem _ h))
      simpa [badDate] using hbad
    · rw [if_neg hl]
      rfl

/-- Witness of C10: the date `12/30` and the separator-less string `012025`. -/
theorem parseDate_forms_witness :
    parseDate (String.mk [digit 1, digit 2, '/', digit 3, digit 0]) = (12, 2030) ∧
    parseDate "012025" = (-1, -1) :=
  ⟨(parseDate_forms 1 2 3 0 0 0 (by decide) (by decide) (by decide) (by decide) (by decide)
      (by decide) "012025").1,
   (parseDate_forms 1 2 3 0 0 0 (by decide) (by decide) (by decide) (by decide) (by decide)
      (by decide) "012025").2.2.2.2.2.1 (by decide) (by decide)⟩

/-! ## The vendor error report -/

theorem getLast?_cons_of_nonempty {α : Type} (a : α) (l : List α) (h : l ≠ []) :
    (a :: l).getLast? = l.getLast? := by
  cases l with
  | nil => exact absurd rfl h
  | cons y ys => simp [List.getLast?_cons_cons]

theorem dropLast_cons_of_nonempty {α : Type} (a : α) (l : List α) (h : l ≠ []) :
    (a :: l).dropLast = a :: l.dropLast := by
  cases l with
  | nil => exact absurd rfl h
  | cons y ys => simp [List.dropLast]

theorem collectFrom_ne_nil (cur : FailureItem) (items : List StatusItem) :
    collectFrom cur items ≠ [] := by
  induction items generalizing cur with
  | nil => simp [collectFrom]
  | cons it rest ih =>
    by_cases h : it.Code = ""
    · simpa [collectFrom, h] using ih _
    · simp [collectFrom, h]

theorem collectFrom_length (cur : FailureItem) (items : List StatusItem) :
    (collectFrom cur items).length = 1 + (items.filter (fun it => it.Code ≠ "")).length := by
  induction items generalizing cur with
  | nil => simp [collectFrom]
  | cons it rest ih =>
    by_cases h : it.Code = ""
    · simp [collectFrom, h, ih]
    · simp [collectFrom, h, ih]
      omega

theorem collect_length (items : List StatusItem) :
    (collect items).length = (items.filter (fun it => it.Code ≠ "")).length := by
  induction items with
  | nil => simp [collect]
  | cons it rest ih =>
    by_cases h : it.Code = ""
    · simp [collect, h, ih]
    · simp [collect, h, collectFrom_length]
      omega

theorem collectFrom_append_codeless (cur b : FailureItem) (pre : List StatusItem)
    (it : StatusItem) (hit : it.Code = "") (hb : (collectFrom cur pre).getLast? = some b) :
    collectFrom cur (pre ++ [it]) = (collectFrom cur pre).dropLast ++ [b.attach it] := by
  induction pre generalizing cur with
  | nil =>
    simp only [collectFrom, List.getLast?_singleton, Option.some.injEq] at hb
    subst hb
    simp [collectFrom, hit]
  | cons x rest ih =>
    by_cases h : x.Code = ""
    · simp only [collectFrom, h, ne_eq, not_true_eq_false, if_false, List.cons_append] at hb ⊢
      exact ih _ hb
    · have hne := collectFrom_ne_nil (FailureItem.ofItem x) rest
      simp only [collectFrom, h, ne_eq, not_false_eq_true, if_true, List.cons_append] at hb ⊢
      rw [getLast?_cons_of_nonempty _ _ hne] at hb
      rw [dropLast_cons_of_nonempty _ _ hne, List.cons_append]
      exact congrArg (List.cons cur) (ih _ hb)

theorem collect_append_codeless (b : FailureItem) (pre : List StatusItem)
    (it : StatusItem) (hit : it.Code = "") (hb : (collect pre).getLast? = some b) :
    collect (pre ++ [it]) = (collect pre).dropLast ++ [b.attach it] := by
  induction pre with
  | nil => simp [collect] at hb
  | cons x rest ih =>
    by_cases h : x.Code = ""
    · simp only [collect, h, ne_eq, not_true_eq_false, if_false, List.cons_append] at hb ⊢
      exact ih hb
    · simp only [collect, h, ne_eq, not_false_eq_true, if_true, List.cons_append] at hb ⊢
      exact collectFrom_append_codeless _ b rest it hit hb

theorem String_join_snoc (l : List String) (x : String) :
    String.join (l ++ [x]) = String.join l ++ x := by
  apply String.ext
  simp [String.data_join, String.data_append]

theorem render_attach (b : FailureItem) (it : StatusItem) (m : String)
    (h : it.text = some m) : (b.attach it).render = b.render ++ ("\n        " ++ m) := by
  simp only [FailureItem.attach, h, FailureItem.render, List.map_append, List.map_cons,
    List.map_nil, String_join_snoc, String.append_assoc]

/-- C8. The rendered vendor error report. For a failure status the report is the header line
`Dominos Failure (<status>)` followed by one block, on a new line, per normalised failure
item of the nested `Order.StatusItems`; the top-level `StatusItems` are not rendered; there
is one block per item that has a `Code`; an item lacking a `Code` adds its message to the
block of the item before it and opens none, a `PulseCode`/`PulseText` pair being rendered as
`PulseCode <n>: <text>`; and the envelope of `TestDominosErrorFailure` renders to the
literal report of the test. -/
theorem report_layout (e : DominosError) (top pre : List StatusItem) (it : StatusItem)
    (b : FailureItem) :
    (e.Status < 0 →
      e.Error = "Dominos Failure (" ++ toString e.Status ++ ")"
        ++ String.join ((collect e.Order.StatusItems).map (fun blk => "\n" ++ blk.render))) ∧
    ({ e with StatusItems := top } : DominosError).Error = e.Error ∧
    (collect e.Order.StatusItems).length
      = (e.Order.StatusItems.filter (fun i => i.Code ≠ "")).length ∧
    (it.Code = "" → (collect pre).getLast? = some b →
      collect (pre ++ [it]) = (collect pre).dropLast ++ [b.attach it] ∧
      (collect (pre ++ [it])).length = (collect pre).length) ∧
    (it.Message = "" → it.PulseText ≠ "" →
      (b.attach it).render
        = b.render ++ ("\n        " ++
            ("PulseCode " ++ toString it.PulseCode ++ ": " ++ it.PulseText))) ∧
    (it.Message ≠ "" → (b.attach it).render = b.render ++ ("\n        " ++ it.Message)) ∧
    testEnvelope.Error
      = "Dominos Failure (-1)\n    Failure Code: 'Failure':\n        test order msg\n    Failure Code: 'SomeOtherCode'\n        PulseCode 1: this isn't the real error format" := by
  refine ⟨?_, rfl, collect_length _, ?_, ?_, ?_, by decide⟩
  · intro h
    simp [DominosError.Error, Severity.ofStatus, h, Severity.label]
  · intro hit hb
    have hc := collect_append_codeless b pre it hit hb
    refine ⟨hc, ?_⟩
    have hne : collect pre ≠ [] := by
      intro hnil
      simp [hnil] at hb
    rw [hc]
    simp only [List.length_append, List.length_dropLast, List.length_singleton]
    have : 0 < (collect pre).length := List.length_pos.mpr hne
    omega
  · intro hm hp
    exact render_attach b it _ (by simp [StatusItem.text, hm, hp])
  · intro hm
    exact render_attach b it _ (by simp [StatusItem.text, hm])

/-- Witness of C8: the third item of the test envelope, which has no `Code`, joins the block
of `SomeOtherCode`. -/
theorem report_layout_witness :
    collect (testEnvelope.Order.StatusItems.take 2 ++
        [{ Code := "", Message := "", PulseCode := 1,
           PulseText := "this isn't the real error format" }])
      = (collect (testEnvelope.Order.StatusItems.take 2)).dropLast ++
        [FailureItem.attach { code := "SomeOtherCode", own := none, extra := [] }
          { Code := "", Message := "", PulseCode := 1,
            PulseText := "this isn't the real error format" }] ∧
    (collect (testEnvelope.Order.StatusItems.take 2 ++
        [{ Code := "", Message := "", PulseCode := 1,
           PulseText := "this isn't the real error format" }])).length
      = (collect (testEnvelope.Order.StatusItems.take 2)).length :=
  (report_layout testEnvelope [] (testEnvelope.Order.StatusItems.take 2)
    { Code := "", Message := "", PulseCode := 1, PulseText := "this isn't the real error format" }
    { code := "SomeOtherCode", own := none, extra := [] }).2.2.2.1 rfl (by decide)

/-! ## Payment cards -/

/-- C11. `ValidateCard` fails if and only if the card number is empty, or the month parsed
from the expiration is outside `1..12`, or the expiration parses to the sentinel `(-1, -1)`.
No checksum is applied: among non-empty numbers the answer does not depend on the number.
The number `370218180742397` is valid with the expirations `0123`, `01/23`, `1/23`, `01/02`
and invalid with `13/21` and `0/21`; an empty number is invalid. -/
theorem ValidateCard_spec (c : Card) (n : String) :
    (ValidateCard c ≠ none ↔
      (c.Number = "" ∨ (parseDate c.Expiration).1 < 1 ∨ 12 < (parseDate c.Expiration).1 ∨
        parseDate c.Expiration = (-1, -1))) ∧
    (c.Number ≠ "" → n ≠ "" → ValidateCard { c with Number := n } = ValidateCard c) ∧
    (c.Number = "" → ValidateCard c ≠ none) ∧
    (ValidateCard (NewCard "370218180742397" "0123" 123) = none ∧
     ValidateCard (NewCard "370218180742397" "01/23" 123) = none ∧
     ValidateCard (NewCard "370218180742397" "1/23" 123) = none ∧
     ValidateCard (NewCard "370218180742397" "01/02" 123) = none ∧
     ValidateCard (NewCard "370218180742397" "13/21" 123) ≠ none ∧
     ValidateCard (NewCard "370218180742397" "0/21" 123) ≠ none ∧
     ValidateCard (NewCard "" "0125" 123) ≠ none ∧
     ValidateCard (NewCard "" "01/25" 123) ≠ none) := by
  refine ⟨?_, ?_, ?_, by decide⟩
  · unfold ValidateCard
    by_cases h1 : c.Number = ""
    · simp [h1]
    · by_cases h2 : parseDate c.Expiration = badDate
      · simp [h1, h2, badDate]
      · by_cases h3 : (parseDate c.Expiration).1 < 1 ∨ 12 < (parseDate c.Expiration).1
        · rcases h3 with h3 | h3 <;> simp [h1, h2, h3]
        · have h2' : ¬ parseDate c.Expiration = (-1, -1) := h2
          simp only [h1, h2, h3, if_false, ne_eq, not_true_eq_false, false_or, h2']
          push_neg at h3
          constructor
          · intro h
            exact h.elim
          · rintro (h | h | h)
            · omega
            · omega
            · exact h
  · intro h1 h2
    simp [ValidateCard, h1, h2]
  · intro h
    simp [ValidateCard, h]

/-- Witness of C11: the number of the test-suite replaced by another non-empty number, with
the expiration `13/21`. -/
theorem ValidateCard_spec_witness :
    ValidateCard { NewCard "370218180742397" "13/21" 123 with Number := "4111111111111111" }
      = ValidateCard (NewCard "370218180742397" "13/21" 123) :=
  (ValidateCard_spec (NewCard "370218180742397" "13/21" 123) "4111111111111111").2.1
    (by decide) (by decide)

/-! ## Addresses -/

theorem cutFirst_append (sep : Char) (a b : List Char) (h : sep ∉ a) :
    cutFirst sep (a ++ sep :: b) = some (a, b) := by
  induction a with
  | nil => simp [cutFirst]
  | cons c rest ih =>
    have hc : c ≠ sep := fun hc => h (by simp [hc])
    have hr : sep ∉ rest := fun hr => h (by simp [hr])
    simp [cutFirst, hc, ih hr]

theorem first_occurrence (c : Char) (l : List Char) (h : c ∈ l) :
    ∃ a b, l = a ++ c :: b ∧ c ∉ a := by
  induction l with
  | nil => simp at h
  | cons x rest ih =>
    by_cases hx : x = c
    · exact ⟨[], rest, by simp [hx], by simp⟩
    · have hr : c ∈ rest := by
        rcases List.mem_cons.mp h with h | h
        · exact absurd h.symm hx
        · exact h
      obtain ⟨a, b, hab, ha⟩ := ih hr
      refine ⟨x :: a, b, by simp [hab], ?_⟩
      intro hm
      rcases List.mem_cons.mp hm with hm | hm
      · exact hx hm.symm
      · exact ha hm

theorem cutFirstDot_append (name city : List Char)
    (h : containsChars ['.', ' '] name = false) :
    cutFirstDot (name ++ '.' :: ' ' :: city) = some (name ++ ['.'], city) := by
  induction name with
  | nil => simp [cutFirstDot, startsWith]
  | cons c rest ih =>
    simp only [containsChars, Bool.or_eq_false_iff] at h
    have hne : ¬ (c = '.' ∧ startsWith (rest ++ '.' :: ' ' :: city) [' '] = true) := by
      rintro ⟨hc, hs⟩
      subst hc
      cases rest with
      | nil => simp [startsWith] at hs
      | cons d more =>
        have hd : d = ' ' := by simpa [startsWith] using hs
        subst hd
        simp [startsWith] at h
    have hne2 : ¬ (c = '.' ∧ startsWith (rest.append ('.' :: ' ' :: city)) [' '] = true) := hne
    have ih2 : cutFirstDot (rest.append ('.' :: ' ' :: city)) = some (rest ++ ['.'], city) :=
      ih h.2
    simp only [List.cons_append, cutFirstDot, ih2]
    rw [if_neg hne2]

theorem digit_not_blank (l : List Char) (h : l.all Char.isDigit = true) :
    ' ' ∉ l ∧ ',' ∉ l := by
  rw [List.all_eq_true] at h
  constructor
  · intro hm
    exact absurd (h _ hm) (by decide)
  · intro hm
    exact absurd (h _ hm) (by decide)

theorem alpha_not_blank (l : List Char) (h : l.all Char.isAlpha = true) : ' ' ∉ l := by
  rw [List.all_eq_true] at h
  intro hm
  exact absurd (h _ hm) (by decide)

theorem parseHead_ok (rules : AddressRules) (num name city : List Char) (hn : num ≠ [])
    (hd : num.all Char.isDigit = true) (hname : containsChars ['.', ' '] name = false)
    (hc : city ≠ []) (hdot : containsChars ['.', ' '] city = false) :
    parseHead rules (num ++ ' ' :: (name ++ '.' :: ' ' :: city))
      = .ok (num, name ++ ['.'], city) := by
  have hcut := cutFirst_append ' ' num (name ++ '.' :: ' ' :: city) (digit_not_blank num hd).1
  simp [parseHead, splitNumber, hcut, hn, hd, uniqueReading, cutFirstDot_append name city hname,
    hc, hdot]

theorem parseTail_ok (st zip : List Char) (hs : st.length = 2 ∧ st.all Char.isAlpha = true)
    (hz : zip.length = 5 ∧ zip.all Char.isDigit = true) :
    parseTail (' ' :: (st ++ ' ' :: zip)) = .ok (st, zip) := by
  have hcut := cutFirst_append ' ' st zip (alpha_not_blank st hs.2)
  simp [parseTail, hcut, hs.1, hs.2, hz.1, hz.2]

theorem parseTail_bad (st zip : List Char)
    (h : ¬ ((st.length = 2 ∧ st.all Char.isAlpha = true) ∧
      (zip.length = 5 ∧ zip.all Char.isDigit = true))) :
    ∃ e, parseTail (' ' :: (st ++ ' ' :: zip)) = .error e := by
  by_cases hsp : ' ' ∈ st
  · obtain ⟨a, b, hab, ha⟩ := first_occurrence ' ' st hsp
    have hcut : cutFirst ' ' (st ++ ' ' :: zip) = some (a, b ++ ' ' :: zip) := by
      rw [hab, List.append_assoc, List.cons_append]
      exact cutFirst_append ' ' a _ ha
    have hz : ¬ ((b ++ ' ' :: zip).all Char.isDigit = true) := by
      intro hall
      exact (digit_not_blank _ hall).1 (by simp)
    simp only [parseTail, hcut, if_true]
    by_cases h1 : a.length = 2 ∧ a.all Char.isAlpha = true
    · rw [if_pos h1, if_neg (fun hh => hz hh.2)]
      exact ⟨_, rfl⟩
    · rw [if_neg h1]
      exact ⟨_, rfl⟩
  · have hcut := cutFirst_append ' ' st zip hsp
    simp only [parseTail, hcut, if_true]
    by_cases h1 : st.length = 2 ∧ st.all Char.isAlpha = true
    · rw [if_pos h1, if_neg (fun hh => h ⟨h1, hh⟩)]
      exact ⟨_, rfl⟩
    · rw [if_neg h1]
      exact ⟨_, rfl⟩

theorem ParseAddress_data (rules : AddressRules) (raw : String)
    (num name city st zip : List Char)
    (hraw : raw.data = (num ++ ' ' :: (name ++ '.' :: ' ' :: city)) ++ ',' :: ' ' :: (st ++ ' ' :: zip))
    (hn : num ≠ []) (hd : num.all Char.isDigit = true) (hname : ',' ∉ name)
    (hnd : containsChars ['.', ' '] name = false)
    (hc : city ≠ []) (hcc : ',' ∉ city) (hdot : containsChars ['.', ' '] city = false)
    (hs : st.length = 2 ∧ st.all Char.isAlpha = true)
    (hz : zip.length = 5 ∧ zip.all Char.isDigit = true) :
    ParseAddress rules raw = .ok
      { StreetNum := String.mk num, StreetName := String.mk (name ++ ['.']),
        Street := String.mk (num ++ ' ' :: (name ++ ['.'])), CityName := String.mk city,
        State := String.mk st, Zipcode := String.mk zip, AddrType := rules.tag raw } := by
  have hhead : ',' ∉ num ++ ' ' :: (name ++ '.' :: ' ' :: city) := by
    have h1 := (digit_not_blank num hd).2
    simp only [List.mem_append, List.mem_cons, not_or]
    refine ⟨h1, by decide, hname, by decide, by decide, hcc⟩
  have hcut := cutFirst_append ',' _ (' ' :: (st ++ ' ' :: zip)) hhead
  unfold ParseAddress
  rw [hraw, hcut]
  simp only [parseHead_ok rules num name city hn hd hnd hc hdot, parseTail_ok st zip hs hz]

/-- Counterexample to C12: the input `378 James St. St. Louis, MO 63101` has the form
`<num> <name>. <City>, <ST> <ZIP>` in two ways, with name `James St` and city `St. Louis`,
and with name `James St. St` and city `Louis`. Whatever is chosen for what the spec leaves
open, `ParseAddress` does not return the substrings of both readings. -/
theorem ParseAddress_two_readings :
    "378" ++ " " ++ "James St" ++ ". " ++ "St. Louis" ++ ", " ++ "MO" ++ " " ++ "63101"
      = "378 James St. St. Louis, MO 63101" ∧
    "378" ++ " " ++ "James St. St" ++ ". " ++ "Louis" ++ ", " ++ "MO" ++ " " ++ "63101"
      = "378 James St. St. Louis, MO 63101" ∧
    ∀ rules : AddressRules,
      ¬ ((∃ p, ParseAddress rules "378 James St. St. Louis, MO 63101" = .ok p ∧
            p.StreetName = "James St" ++ "." ∧ p.CityName = "St. Louis") ∧
         (∃ p, ParseAddress rules "378 James St. St. Louis, MO 63101" = .ok p ∧
            p.StreetName = "James St. St" ++ "." ∧ p.CityName = "Louis")) := by
  refine ⟨by decide, by decide, ?_⟩
  rintro rules ⟨⟨p, hp, h1, _⟩, ⟨q, hq, h2, _⟩⟩
  rw [hp] at hq
  have hpq : p = q := by
    injection hq
  subst hpq
  rw [h1] at h2
  exact absurd h2 (by decide)

/-- C12, amended. For every input `<num> <name>. <City>, <ST> <ZIP>` that reads in one way
only (num a non-empty string of digits; name and City without comma and without a period
followed by a blank; City non-empty), with ST two letters and ZIP five digits, `ParseAddress`
succeeds and returns the exact substrings: number num, street name `<name>.`, street
`<num> <name>.`, city, state and zip. For every input `<head>, <ST> <ZIP>` whose head has no
comma, `ParseAddress` fails with a parse error when ST is not two letters or ZIP is not five
digits. Both hold whatever is chosen for what the spec leaves open. -/
theorem ParseAddress_recovers (rules : AddressRules) (num name city st zip head : String)
    (hnum : num.data ≠ [] ∧ num.data.all Char.isDigit = true)
    (hname : ',' ∉ name.data ∧ containsChars ['.', ' '] name.data = false)
    (hcity : city.data ≠ [] ∧ ',' ∉ city.data ∧ containsChars ['.', ' '] city.data = false)
    (hhead : ',' ∉ head.data) :
    (st.data.length = 2 ∧ st.data.all Char.isAlpha = true →
      zip.data.length = 5 ∧ zip.data.all Char.isDigit = true →
      ∃ p, ParseAddress rules (num ++ " " ++ name ++ ". " ++ city ++ ", " ++ st ++ " " ++ zip)
          = .ok p ∧
        p.StreetNum = num ∧ p.StreetName = name ++ "." ∧ p.Street = num ++ " " ++ name ++ "." ∧
        p.CityName = city ∧ p.State = st ∧ p.Zipcode = zip) ∧
    (¬ ((st.data.length = 2 ∧ st.data.all Char.isAlpha = true) ∧
        (zip.data.length = 5 ∧ zip.data.all Char.isDigit = true)) →
      ∃ e, ParseAddress rules (head ++ ", " ++ st ++ " " ++ zip) = .error e) := by
  constructor
  · intro hs hz
    have h := ParseAddress_data rules
      (num ++ " " ++ name ++ ". " ++ city ++ ", " ++ st ++ " " ++ zip)
      num.data name.data city.data st.data zip.data
      (by simp [String.data_append]) hnum.1 hnum.2 hname.1 hname.2 hcity.1 hcity.2.1
      hcity.2.2 hs hz
    refine ⟨_, h, rfl, ?_, ?_, rfl, rfl, rfl⟩
    · apply String.ext
      simp [String.data_append]
    · apply String.ext
      simp [String.data_append]
  · intro hbad
    have hraw : (head ++ ", " ++ st ++ " " ++ zip).data
        = head.data ++ ',' :: ' ' :: (st.data ++ ' ' :: zip.data) := by
      simp [String.data_append]
    have hcut := cutFirst_append ',' head.data (' ' :: (st.data ++ ' ' :: zip.data)) hhead
    obtain ⟨e, he⟩ := parseTail_bad st.data zip.data hbad
    unfold ParseAddress
    rw [hraw, hcut]
    cases hh : parseHead rules head.data with
    | error e' => exact ⟨e', by simp [hh]⟩
    | ok v => exact ⟨e, by simp [hh, he]⟩

/-- Witness of C12: the first row of `TestParseAddressTable`. -/
theorem ParseAddress_recovers_witness :
    ∃ p, ParseAddress lastWordRules ("1600" ++ " " ++ "Pennsylvania Ave" ++ ". " ++ "Washington"
          ++ ", " ++ "DC" ++ " " ++ "20500") = .ok p ∧
      p.StreetNum = "1600" ∧ p.StreetName = "Pennsylvania Ave" ++ "." ∧
      p.Street = "1600" ++ " " ++ "Pennsylvania Ave" ++ "." ∧
      p.CityName = "Washington" ∧ p.State = "DC" ∧ p.Zipcode = "20500" :=
  (ParseAddress_recovers lastWordRules "1600" "Pennsylvania Ave" "Washington" "DC" "20500"
    "1600 Pennsylvania Ave. Washington" (by decide) (by decide) (by decide) (by decide)).1
    (by decide) (by decide)

/-- Counterexample to C13: the streets `378 James St.` with city `St. Louis` and
`378 James St. St.` with city `Louis` give the same line `s c, st z`, and
`StreetAddrFromAddress` keeps each street as its line one. Whatever is chosen for what the
spec leaves open, the one result of `ParseAddress` on that line does not have the line one
of both. -/
theorem StreetAddrFromAddress_two_readings :
    "378 James St." ++ " " ++ "St. Louis" ++ ", " ++ "MO" ++ " " ++ "63101"
      = "378 James St. St." ++ " " ++ "Louis" ++ ", " ++ "MO" ++ " " ++ "63101" ∧
    ∀ rules : AddressRules,
      ¬ ((∃ p, ParseAddress rules
              ("378 James St." ++ " " ++ "St. Louis" ++ ", " ++ "MO" ++ " " ++ "63101") = .ok p ∧
            (StreetAddrFromAddress rules ⟨"378 James St.", "St. Louis", "MO", "63101"⟩).LineOne
              = p.LineOne) ∧
         (∃ p, ParseAddress rules
              ("378 James St. St." ++ " " ++ "Louis" ++ ", " ++ "MO" ++ " " ++ "63101") = .ok p ∧
            (StreetAddrFromAddress rules ⟨"378 James St. St.", "Louis", "MO", "63101"⟩).LineOne
              = p.LineOne)) := by
  have hraw : "378 James St." ++ " " ++ "St. Louis" ++ ", " ++ "MO" ++ " " ++ "63101"
      = "378 James St. St." ++ " " ++ "Louis" ++ ", " ++ "MO" ++ " " ++ "63101" := by decide
  refine ⟨hraw, ?_⟩
  rintro rules ⟨⟨p, hp, h1⟩, ⟨q, hq, h2⟩⟩
  rw [hraw, hq] at hp
  have hpq : q = p := by
    injection hp
  subst hpq
  have l1 : (StreetAddrFromAddress rules ⟨"378 James St.", "St. Louis", "MO", "63101"⟩).LineOne
      = "378 James St." := by
    unfold StreetAddrFromAddress StreetAddr.LineOne
    split <;> rfl
  have l2 : (StreetAddrFromAddress rules ⟨"378 James St. St.", "Louis", "MO", "63101"⟩).LineOne
      = "378 James St. St." := by
    unfold StreetAddrFromAddress StreetAddr.LineOne
    split <;> rfl
  rw [l1] at h1
  rw [l2, ← h1] at h2
  exact absurd h2 (by decide)

/-- C13, amended. For every street `s = <num> <name>.` (num a non-empty string of digits,
name closed by a period), city `c`, two-letter state `st` and five-digit zip `z` such that
`s c, st z` reads in one way only (name and `c` without comma and without a period followed
by a blank; `c` non-empty), `ParseAddress` succeeds on `s c, st z` and
`StreetAddrFromAddress` on the structured address has the same `City()`, `LineOne()`,
`StateCode()`, `Zip()`, `StreetNum` and `StreetName`, with city, state and zip copied
verbatim from the structured input. This holds whatever is chosen for what the spec leaves
open. -/
theorem StreetAddrFromAddress_agrees (rules : AddressRules) (num name c st z : String)
    (hnum : num.data ≠ [] ∧ num.data.all Char.isDigit = true)
    (hname : ',' ∉ name.data ∧ containsChars ['.', ' '] name.data = false)
    (hcity : c.data ≠ [] ∧ ',' ∉ c.data ∧ containsChars ['.', ' '] c.data = false)
    (hs : st.data.length = 2 ∧ st.data.all Char.isAlpha = true)
    (hz : z.data.length = 5 ∧ z.data.all Char.isDigit = true) :
    ∃ p, ParseAddress rules ((num ++ " " ++ name ++ ".") ++ " " ++ c ++ ", " ++ st ++ " " ++ z)
        = .ok p ∧
      (StreetAddrFromAddress rules ⟨num ++ " " ++ name ++ ".", c, st, z⟩).City = p.City ∧
      (StreetAddrFromAddress rules ⟨num ++ " " ++ name ++ ".", c, st, z⟩).LineOne = p.LineOne ∧
      (StreetAddrFromAddress rules ⟨num ++ " " ++ name ++ ".", c, st, z⟩).StateCode
        = p.StateCode ∧
      (StreetAddrFromAddress rules ⟨num ++ " " ++ name ++ ".", c, st, z⟩).Zip = p.Zip ∧
      (StreetAddrFromAddress rules ⟨num ++ " " ++ name ++ ".", c, st, z⟩).StreetNum
        = p.StreetNum ∧
      (StreetAddrFromAddress rules ⟨num ++ " " ++ name ++ ".", c, st, z⟩).StreetName
        = p.StreetName ∧
      (StreetAddrFromAddress rules ⟨num ++ " " ++ name ++ ".", c, st, z⟩).City = c ∧
      (StreetAddrFromAddress rules ⟨num ++ " " ++ name ++ ".", c, st, z⟩).StateCode = st ∧
      (StreetAddrFromAddress rules ⟨num ++ " " ++ name ++ ".", c, st, z⟩).Zip = z := by
  have h := ParseAddress_data rules
    ((num ++ " " ++ name ++ ".") ++ " " ++ c ++ ", " ++ st ++ " " ++ z)
    num.data name.data c.data st.data z.data
    (by simp [String.data_append]) hnum.1 hnum.2 hname.1 hname.2 hcity.1 hcity.2.1 hcity.2.2
    hs hz
  have hsplit : splitNumber (num ++ " " ++ name ++ ".").data
      = some (num.data, name.data ++ ['.']) := by
    have hd : (num ++ " " ++ name ++ ".").data = num.data ++ ' ' :: (name.data ++ ['.']) := by
      simp [String.data_append]
    have hcut := cutFirst_append ' ' num.data (name.data ++ ['.'])
      (digit_not_blank num.data hnum.2).1
    simp [splitNumber, hd, hcut, hnum.1, hnum.2]
  refine ⟨_, h, ?_⟩
  simp only [StreetAddrFromAddress, hsplit, StreetAddr.City, StreetAddr.LineOne,
    StreetAddr.StateCode, StreetAddr.Zip, and_true, true_and]
  apply String.ext
  simp [String.data_append]

/-- Witness of C13: the address of `TestOrderAddressConvertion`. -/
theorem StreetAddrFromAddress_agrees_witness :
    ∃ p, ParseAddress lastWordRules (("1600" ++ " " ++ "Pennsylvania Ave" ++ ".") ++ " "
          ++ "Washington" ++ ", " ++ "DC" ++ " " ++ "20500") = .ok p ∧
      (StreetAddrFromAddress lastWordRules
        ⟨"1600" ++ " " ++ "Pennsylvania Ave" ++ ".", "Washington", "DC", "20500"⟩).City
        = p.City ∧
      (StreetAddrFromAddress lastWordRules
        ⟨"1600" ++ " " ++ "Pennsylvania Ave" ++ ".", "Washington", "DC", "20500"⟩).LineOne
        = p.LineOne :=
  match StreetAddrFromAddress_agrees lastWordRules "1600" "Pennsylvania Ave" "Washington" "DC"
      "20500" (by decide) (by decide) (by decide) (by decide) (by decide) with
  | ⟨p, hp, h1, h2, _⟩ => ⟨p, hp, h1, h2⟩

/-! ## configdpz.go -/

theorem splitChars_at_sep (sep : Char) (a b cur : List Char) (h : sep ∉ a) :
    splitChars sep cur (a ++ sep :: b) = (cur.reverse ++ a) :: splitChars sep [] b := by
  induction a generalizing cur with
  | nil => simp [splitChars]
  | cons c rest ih =>
    have hc : c ≠ sep := fun hc => h (by simp [hc])
    have hr : sep ∉ rest := fun hr => h (by simp [hr])
    simp [splitChars, hc, ih (c :: cur) hr]

theorem splitChars_ne_nil (sep : Char) (cur l : List Char) : splitChars sep cur l ≠ [] := by
  induction l generalizing cur with
  | nil => simp [splitChars]
  | cons c rest ih =>
    by_cases hc : c = sep
    · simp [splitChars, hc]
    · simpa [splitChars, hc] using ih (c :: cur)

theorem setLoop_malformed {σ : Type} (cfgSet : σ → String → String → σ × Option GoError)
    (bad : String) (post : List String) (conf : σ)
    (h : '=' ∉ bad.data ∨ (∃ rest, bad.data = '=' :: rest) ∨
      (∃ k, '=' ∉ k ∧ bad.data = k ++ ['='])) :
    setLoop cfgSet (bad :: post) conf = (some formatError, conf, []) := by
  rcases h with h | ⟨rest, h⟩ | ⟨k, hk, h⟩
  · have hs := splitChars_no_sep '=' bad.data [] h
    simp only [List.reverse_nil, List.nil_append] at hs
    simp only [setLoop, hs]
  · have hs : splitChars '=' [] bad.data = [] :: splitChars '=' [] rest := by
      rw [h]
      simp [splitChars]
    cases hr : splitChars '=' [] rest with
    | nil => exact absurd hr (splitChars_ne_nil _ _ _)
    | cons v more => simp [setLoop, hs, hr]
  · have hs : splitChars '=' [] bad.data = [k, []] := by
      rw [h, splitChars_at_sep '=' k [] [] hk]
      simp [splitChars]
    simp [setLoop, hs]

theorem setLoop_append {σ : Type} (cfgSet : σ → String → String → σ × Option GoError)
    (pre rest : List String) (conf : σ) :
    setLoop cfgSet (pre ++ rest) conf =
      if (setLoop cfgSet pre conf).1 = none then
        ((setLoop cfgSet rest (setLoop cfgSet pre conf).2.1).1,
         (setLoop cfgSet rest (setLoop cfgSet pre conf).2.1).2.1,
         (setLoop cfgSet pre conf).2.2 ++ (setLoop cfgSet rest (setLoop cfgSet pre conf).2.1).2.2)
      else setLoop cfgSet pre conf := by
  induction pre generalizing conf with
  | nil => simp [setLoop]
  | cons arg more ih =>
    rw [List.cons_append]
    cases hs : splitChars '=' [] arg.data with
    | nil => exact absurd hs (splitChars_ne_nil _ _ _)
    | cons k tl =>
      cases tl with
      | nil => simp [setLoop, hs, formatError]
      | cons v tl2 =>
        by_cases hkv : k = [] ∨ v = []
        · simp [setLoop, hs, hkv, formatError]
        · cases hc : (cfgSet conf (String.mk k)
              (if String.mk v = "-" then "" else String.mk v)).2 with
          | some e => simp [setLoop, hs, hkv, hc]
          | none =>
            simp only [setLoop, hs, hkv, hc, if_false]
            rw [ih]
            split_ifs <;> simp_all

theorem set_nonempty {σ : Type} (cfgSet : σ → String → String → σ × Option GoError)
    (pre post : List String) (arg : String) (conf : σ) :
    Apizza.set cfgSet (pre ++ arg :: post) conf = setLoop cfgSet (pre ++ arg :: post) conf := by
  simp [Apizza.set]

/-- C14. `config set` rejects malformed input. For an empty argument list `set` returns the
error `no variable given`. For an argument that contains no `=`, or whose key part is empty,
or whose value part is empty, the calls made to `config.Set` are those made for the arguments
before it, none for it or for a later one, and `set` returns the format error as soon as the
arguments before it were accepted (always, when it is the first argument). An error
returned by `config.Set` for an argument is returned unchanged. -/
theorem set_rejects_malformed {σ : Type} (cfgSet : σ → String → String → σ × Option GoError)
    (conf : σ) (pre post : List String) (bad : String) (k v : List Char) (e : GoError) :
    Apizza.set cfgSet [] conf = (some (.text "no variable given"), conf, []) ∧
    (('=' ∉ bad.data ∨ (∃ rest, bad.data = '=' :: rest) ∨
        (∃ key, '=' ∉ key ∧ bad.data = key ++ ['='])) →
      (Apizza.set cfgSet (pre ++ bad :: post) conf).2.2 = (setLoop cfgSet pre conf).2.2 ∧
      ((setLoop cfgSet pre conf).1 = none →
        Apizza.set cfgSet (pre ++ bad :: post) conf
          = (some (.text
              "use '<key>=<value>' format (no spaces), use <key>='-' to set as empty"),
             (setLoop cfgSet pre conf).2.1, (setLoop cfgSet pre conf).2.2)) ∧
      Apizza.set cfgSet (bad :: post) conf
        = (some (.text "use '<key>=<value>' format (no spaces), use <key>='-' to set as empty"),
           conf, [])) ∧
    (k ≠ [] → v ≠ [] → '=' ∉ k → '=' ∉ v → (setLoop cfgSet pre conf).1 = none →
      (cfgSet (setLoop cfgSet pre conf).2.1 (String.mk k)
        (if String.mk v = "-" then "" else String.mk v)).2 = some e →
      (Apizza.set cfgSet (pre ++ String.mk (k ++ '=' :: v) :: post) conf).1 = some e) := by
  refine ⟨rfl, ?_, ?_⟩
  · intro hbad
    have hm := fun c => setLoop_malformed cfgSet bad post c hbad
    refine ⟨?_, ?_, ?_⟩
    · rw [set_nonempty, setLoop_append]
      by_cases hp : (setLoop cfgSet pre conf).1 = none
      · simp [hp, hm]
      · simp [hp]
    · intro hp
      rw [set_nonempty, setLoop_append]
      simp [hp, hm, formatError]
    · have h := set_nonempty cfgSet [] post bad conf
      simp only [List.nil_append] at h
      rw [h, hm]
      rfl
  · intro hk hv hke hve hp hc
    have hs : splitChars '=' [] (String.mk (k ++ '=' :: v)).data = [k, v] := by
      show splitChars '=' [] (k ++ '=' :: v) = [k, v]
      rw [splitChars_at_sep '=' k v [] hke, splitChars_no_sep '=' v [] hve]
      simp
    rw [set_nonempty, setLoop_append]
    simp only [hp, if_true]
    simp only [setLoop, hs, hk, hv, or_self, if_false, hc]

/-- Witness of C14: after the accepted argument `name=ann`, the argument `badformat`. -/
theorem set_rejects_malformed_witness :
    (Apizza.set listSet (["name=ann"] ++ "badformat" :: ["email=x"]) testConfig).2.2
      = (setLoop listSet ["name=ann"] testConfig).2.2 ∧
    ((setLoop listSet ["name=ann"] testConfig).1 = none →
      Apizza.set listSet (["name=ann"] ++ "badformat" :: ["email=x"]) testConfig
        = (some (.text
            "use '<key>=<value>' format (no spaces), use <key>='-' to set as empty"),
           (setLoop listSet ["name=ann"] testConfig).2.1,
           (setLoop listSet ["name=ann"] testConfig).2.2)) ∧
    Apizza.set listSet ("badformat" :: ["email=x"]) testConfig
      = (some (.text "use '<key>=<value>' format (no spaces), use <key>='-' to set as empty"),
         testConfig, []) :=
  (set_rejects_malformed listSet testConfig ["name=ann"] ["email=x"] "badformat" [] []
    (.text "")).2.1 (Or.inl (by decide))

/-- C15, evaluated at a value that contains an equals sign. For the argument `name=a=b`,
whose key is `name` and whose text after the first `=` is `a=b`, `set` calls `config.Set`
with the value `a`; for the argument `name==b`, whose text after the first `=` is `=b`, it
returns the format error and does not call `config.Set`. -/
theorem set_value_with_equals_sign :
    Apizza.set listSet ["name=a=b"] testConfig
      = (none, upsert "name" "a" testConfig, [("name", "a")]) ∧
    Apizza.set listSet ["name==b"] testConfig = (some formatError, testConfig, []) ∧
    Apizza.set listSet ["name=someNameOtherThanJoe"] testConfig
      = (none, upsert "name" "someNameOtherThanJoe" testConfig,
          [("name", "someNameOtherThanJoe")]) := by
  decide

theorem String_join_cons (x : String) (l : List String) :
    String.join (x :: l) = x ++ String.join l := by
  apply String.ext
  simp [String.data_join, String.data_append]

theorem getLoop_found (cfgGet : String → Option String) (pre rest : List String)
    (out : String) (h : ∀ a ∈ pre, cfgGet a ≠ none) :
    getLoop cfgGet (pre ++ rest) out
      = getLoop cfgGet rest
          (out ++ String.join (pre.map (fun a => (cfgGet a).getD "" ++ "\n"))) := by
  induction pre generalizing out with
  | nil =>
    have hj : String.join [] = "" := rfl
    simp [hj]
  | cons a more ih =>
    have ha : cfgGet a ≠ none := h a (by simp)
    have hm : ∀ b ∈ more, cfgGet b ≠ none := fun b hb => h b (by simp [hb])
    cases hv : cfgGet a with
    | none => exact absurd hv ha
    | some v =>
      have ih2 := ih (out ++ v ++ "\n") hm
      simp only [List.cons_append, getLoop, hv, List.map_cons, String_join_cons,
        Option.getD_some]
      have e1 : getLoop cfgGet (more.append rest) (out ++ v ++ "\n")
          = getLoop cfgGet (more ++ rest) (out ++ v ++ "\n") := rfl
      rw [e1, ih2]
      simp only [String.append_assoc]

/-- C16. `config get` prints the requested values in argument order, one per line. For a
non-empty argument list whose keys all exist, `get` writes the value of each key followed by
a newline, in the order given, and returns nil; for the keys `email`, `name` of the test
configuration it writes `nojoe@mail.com` and `joe` on two lines. For an empty list it returns
`no variable given` and writes nothing. At the first key `k` for which `config.Get` returns
nil it returns `cannot find k`, having written the values of the keys before `k` and nothing
for `k` or a later key. -/
theorem get_prints_in_order (cfgGet : String → Option String) (args pre post : List String)
    (k out : String) :
    (args ≠ [] → (∀ a ∈ args, cfgGet a ≠ none) →
      get cfgGet args out
        = (none, out ++ String.join (args.map (fun a => (cfgGet a).getD "" ++ "\n")))) ∧
    get cfgGet [] out = (some (.text "no variable given"), out) ∧
    ((∀ a ∈ pre, cfgGet a ≠ none) → cfgGet k = none →
      get cfgGet (pre ++ k :: post) out
        = (some (.text ("cannot find " ++ k)),
           out ++ String.join (pre.map (fun a => (cfgGet a).getD "" ++ "\n")))) ∧
    get (listGet testConfig) ["email", "name"] "" = (none, "nojoe@mail.com\njoe\n") := by
  refine ⟨?_, rfl, ?_, by decide⟩
  · intro hne hall
    have hlen : ¬ args.length < 1 := by
      cases args with
      | nil => exact absurd rfl hne
      | cons a l => simp
    have h := getLoop_found cfgGet args [] out hall
    rw [List.append_nil] at h
    simp only [get, hlen, if_false, h, getLoop]
  · intro hall hk
    have hlen : ¬ (pre ++ k :: post).length < 1 := by simp
    simp only [get, hlen, if_false, getLoop_found cfgGet pre (k :: post) out hall, getLoop, hk]

/-- Witness of C16: the key `nonExistantKey` after the key `email` of the test
configuration. -/
theorem get_prints_in_order_witness :
    get (listGet testConfig) (["email"] ++ "nonExistantKey" :: ["name"]) ""
      = (some (.text ("cannot find " ++ "nonExistantKey")),
         "" ++ String.join (["email"].map (fun a => ((listGet testConfig) a).getD "" ++ "\n"))) :=
  (get_prints_in_order (listGet testConfig) ["email"] ["email"] ["name"] "nonExistantKey"
    "").2.2.1 (by decide) (by decide)

/-! ## Printing the saved orders -/

theorem scanOrders_verbose (codec : JSONCodec) (snap : List (String × Bytes))
    (orders : List String) (uOrders : List Order) (r : List String × List Order)
    (h : scanOrders codec true snap orders uOrders = .ok r) :
    r.1 = orders ++ (snap.filter (fun kv => Contains kv.1 OrderPrefix)).map
        (fun kv => ReplaceAll kv.1 OrderPrefix "") ∧
    r.2 = uOrders ++ (snap.filter (fun kv => Contains kv.1 OrderPrefix)).map
        (fun kv => (codec.unmarshal kv.2 Order.fresh).1.SetName
          (ReplaceAll kv.1 OrderPrefix "")) := by
  induction snap generalizing orders uOrders with
  | nil =>
    simp only [scanOrders, Except.ok.injEq] at h
    subst h
    simp
  | cons kv rest ih =>
    obtain ⟨k, v⟩ := kv
    by_cases hk : Contains k OrderPrefix = true
    · cases hd : (codec.unmarshal v Order.fresh).2 with
      | some err => simp [scanOrders, hk, hd] at h
      | none =>
        simp only [scanOrders, hk, hd, if_true] at h
        have := ih _ _ h
        simpa [List.filter_cons, hk, List.append_assoc] using this
    · simp only [scanOrders, hk, if_false, Bool.false_eq_true] at h
      have := ih _ _ h
      simpa [List.filter_cons, hk] using this

theorem scanOrders_no_match (codec : JSONCodec) (verbose : Bool)
    (snap : List (String × Bytes)) (orders : List String) (uOrders : List Order)
    (h : ∀ kv ∈ snap, Contains kv.1 OrderPrefix = false) :
    scanOrders codec verbose snap orders uOrders = .ok (orders, uOrders) := by
  induction snap with
  | nil => rfl
  | cons kv rest ih =>
    obtain ⟨k, v⟩ := kv
    have hk : Contains k OrderPrefix = false := h (k, v) (by simp)
    have hr : ∀ kv ∈ rest, Contains kv.1 OrderPrefix = false := fun kv hkv => h kv (by simp [hkv])
    simp [scanOrders, hk, ih hr]

theorem printLoop_in_range (printOrder : Order → Bool → String × Option GoError)
    (verbose yesColor : Bool) (uOrders : List Order) (i : Nat) (names : List String)
    (w : String) (h : verbose = true → i + names.length ≤ uOrders.length) :
    (printLoop printOrder verbose yesColor uOrders i names w).1 ≠ Outcome.indexOutOfRange := by
  induction names generalizing i w with
  | nil => simp [printLoop]
  | cons o rest ih =>
    cases verbose with
    | false =>
      simp only [printLoop, Bool.false_eq_true, if_false]
      exact ih _ _ (by simp)
    | true =>
      have hlen := h rfl
      simp only [List.length_cons] at hlen
      have hi : i < uOrders.length := by omega
      simp only [printLoop, if_true, List.getElem?_eq_getElem hi]
      cases hp : (printOrder uOrders[i] yesColor).2 with
      | some e => simp
      | none =>
        simp only
        exact ih _ _ (fun _ => by omega)

/-- C17. `PrintOrders` never indexes out of range. In verbose mode, when no decode error
occurs, the names and the decoded orders are obtained from the same keys, those that contain
`user_order_`, in the same order: the i-th decoded order is the order decoded from the value
of the key that gave the i-th name, with `OrderName` set to that name, the two lists have the
same length and `uOrders[i]` is defined for every index of the printing loop. `PrintOrders`
does not end by an index out of range, in either mode. When the snapshot has no key
containing `user_order_`, it writes `No orders saved.` and returns nil without a header. -/
theorem PrintOrders_in_range (codec : JSONCodec)
    (printOrder : Order → Bool → String × Option GoError) (db : DataBase) (w color : String)
    (verbose : Bool) (snap : List (String × Bytes)) (r : List String × List Order) :
    (scanOrders codec true snap [] [] = .ok r →
      r.1 = (snap.filter (fun kv => Contains kv.1 OrderPrefix)).map
          (fun kv => ReplaceAll kv.1 OrderPrefix "") ∧
      r.2 = (snap.filter (fun kv => Contains kv.1 OrderPrefix)).map
          (fun kv => (codec.unmarshal kv.2 Order.fresh).1.SetName
            (ReplaceAll kv.1 OrderPrefix "")) ∧
      r.2.length = r.1.length ∧
      (∀ i, i < r.1.length → ∃ u, r.2[i]? = some u ∧ some u.OrderName = r.1[i]?)) ∧
    (PrintOrders codec printOrder db w verbose color).1 ≠ Outcome.indexOutOfRange ∧
    (db.Map.2 = none → (∀ kv ∈ db.Map.1, Contains kv.1 OrderPrefix = false) →
      PrintOrders codec printOrder db w verbose color
        = (Outcome.returned none, w ++ "No orders saved.\n")) := by
  refine ⟨?_, ?_, ?_⟩
  · intro h
    obtain ⟨h1, h2⟩ := scanOrders_verbose codec snap [] [] r h
    simp only [List.nil_append] at h1 h2
    refine ⟨h1, h2, by rw [h1, h2, List.length_map, List.length_map], ?_⟩
    intro i hi
    rw [h1, List.length_map] at hi
    rw [h1, h2]
    simp only [List.getElem?_map, List.getElem?_eq_getElem hi, Option.map_some']
    exact ⟨_, rfl, rfl⟩
  · unfold PrintOrders
    cases hm : db.Map.2 with
    | some err => simp
    | none =>
      simp only
      cases hs : scanOrders codec verbose db.Map.1 [] [] with
      | error err => simp
      | ok res =>
        simp only
        by_cases hl : res.1.length < 1
        · simp [hl]
        · rw [if_neg hl]
          apply printLoop_in_range
          intro hv
          subst hv
          obtain ⟨h1, h2⟩ := scanOrders_verbose codec db.Map.1 [] [] res hs
          simp only [List.nil_append] at h1 h2
          rw [h1, h2, List.length_map, List.length_map]
          omega
  · intro hm hall
    unfold PrintOrders
    simp only [hm, scanOrders_no_match codec verbose db.Map.1 [] [] hall]
    simp

/-- Witness of C17: the sample database, whose only matching key is `user_order_lunch`, read
with a codec that decodes its value. -/
theorem PrintOrders_in_range_witness :
    (["lunch"], [sampleOrder.SetName "lunch"]).2.length
      = (["lunch"], [sampleOrder.SetName "lunch"]).1.length ∧
    PrintOrders (docCodec "old" sampleOrder) namePrinter emptyDB "" true ""
      = (Outcome.returned none, "" ++ "No orders saved.\n") :=
  ⟨((PrintOrders_in_range (docCodec "old" sampleOrder) namePrinter sampleDB "" "" true
      sampleDB.Map.1 (["lunch"], [sampleOrder.SetName "lunch"])).1 rfl).2.2.1,
   (PrintOrders_in_range (docCodec "old" sampleOrder) namePrinter emptyDB "" "" true
      [] ([], [])).2.2 rfl (by decide)⟩

/-! ## JSON text of an order -/

theorem escape_quote_cons (s rest : List Char) :
    ∃ d t, escape s ++ '"' :: rest = d :: t := by
  cases s with
  | nil => exact ⟨_, _, rfl⟩
  | cons c s =>
    by_cases h : c = '"' ∨ c = '\\'
    · refine ⟨'\\', c :: (escape s ++ '"' :: rest), ?_⟩
      simp [escape, h]
    · refine ⟨c, escape s ++ '"' :: rest, ?_⟩
      simp [escape, h]

theorem readQuoted_escape (s rest : List Char) :
    readQuoted (escape s ++ '"' :: rest) = some (s, rest) := by
  induction s with
  | nil =>
    cases rest with
    | nil => simp [escape, readQuoted]
    | cons d r => simp [escape, readQuoted]
  | cons c s ih =>
    by_cases h : c = '"' ∨ c = '\\'
    · simp only [escape, h, if_true, List.cons_append]
      rw [readQuoted]
      simp [ih]
    · simp only [escape, h, if_false, List.cons_append]
      obtain ⟨d, t, hdt⟩ := escape_quote_cons s rest
      rw [hdt] at ih ⊢
      rw [readQuoted]
      push_neg at h
      simp [h.1, h.2, ih]

theorem readString_quote (s : String) (rest : List Char) :
    readString (quote s ++ rest) = some (s, rest) := by
  simp [readString, quote, readQuoted_escape]

theorem expect_append (lit rest : List Char) : expect lit (lit ++ rest) = some rest := by
  induction lit with
  | nil => cases rest <;> simp [expect]
  | cons c lit ih => simp [expect, ih]

theorem expect_char (c : Char) (rest : List Char) : expect [c] (c :: rest) = some rest :=
  expect_append [c] rest

theorem readField_field {α : Type} (key : String)
    (read : List Char → Option (α × List Char)) (text rest : List Char) :
    readField key read (field key text ++ rest) = read (text ++ rest) := by
  have h : field key text ++ rest = (quote key ++ [':']) ++ (text ++ rest) := by
    simp [field]
  rw [readField, h, expect_append]

theorem digitsValue_map_digit (ds : List Nat) (a : Nat) (h : ∀ d ∈ ds, d < 10) :
    digitsValue a (ds.map digit) = some (ds.foldl (fun x d => 10 * x + d) a) := by
  induction ds generalizing a with
  | nil => simp [digitsValue]
  | cons d ds ih =>
    obtain ⟨h1, h2, _⟩ := digit_spec d (h d (by simp))
    simp only [List.map_cons, digitsValue, h1, if_true, h2, List.foldl_cons]
    exact ih _ (fun x hx => h x (by simp [hx]))

theorem natText_spec (n : Nat) :
    natText n ≠ [] ∧ (∀ c ∈ natText n, c.isDigit = true) ∧ atoi (natText n) = some n := by
  by_cases h0 : n = 0
  · subst h0
    refine ⟨by simp [natText], by simp [natText], by decide⟩
  · have hlt : ∀ d ∈ (Nat.digits 10 n).reverse, d < 10 := by
      intro d hd
      exact Nat.digits_lt_base (by norm_num) (List.mem_reverse.mp hd)
    have hne : (Nat.digits 10 n).reverse ≠ [] := by
      simpa using (Nat.digits_ne_nil_iff_ne_zero.mpr h0)
    have hval := digitsValue_map_digit (Nat.digits 10 n).reverse 0 hlt
    have hfold : (Nat.digits 10 n).reverse.foldl (fun x d => 10 * x + d) 0 = n := by
      rw [List.foldl_reverse]
      have := Nat.ofDigits_digits 10 n
      rw [Nat.ofDigits_eq_foldr] at this
      simpa [Nat.add_comm] using this
    refine ⟨by simpa [natText, h0] using hne, ?_, ?_⟩
    · intro c hc
      simp only [natText, h0, if_false, List.mem_map] at hc
      obtain ⟨d, hd, rfl⟩ := hc
      exact (digit_spec d (hlt d hd)).1
    · have hform : natText n = (Nat.digits 10 n).reverse.map digit := by simp [natText, h0]
      rw [hform]
      cases hm : (Nat.digits 10 n).reverse.map digit with
      | nil => simp at hm; exact absurd hm (by simpa using hne)
      | cons c t =>
        rw [← hm]
        have : atoi ((Nat.digits 10 n).reverse.map digit)
            = digitsValue 0 ((Nat.digits 10 n).reverse.map digit) := by
          rw [hm]
          rfl
        rw [this, hval, hfold]

theorem takeWhile_digits (ds rest : List Char) (c : Char) (h : ∀ x ∈ ds, x.isDigit = true)
    (hc : c.isDigit = false) :
    (ds ++ c :: rest).takeWhile Char.isDigit = ds ∧
    (ds ++ c :: rest).dropWhile Char.isDigit = c :: rest := by
  induction ds with
  | nil => simp [List.takeWhile, List.dropWhile, hc]
  | cons d ds ih =>
    have hd : d.isDigit = true := h d (by simp)
    have ih2 := ih (fun x hx => h x (by simp [hx]))
    simp [List.takeWhile, List.dropWhile, hd, ih2.1, ih2.2]

theorem readNat_natText (n : Nat) (c : Char) (rest : List Char) (hc : c.isDigit = false) :
    readNat (natText n ++ c :: rest) = some (n, c :: rest) := by
  obtain ⟨_, hd, hv⟩ := natText_spec n
  obtain ⟨h1, h2⟩ := takeWhile_digits (natText n) rest c hd hc
  simp [readNat, h1, h2, hv]

theorem readItems_join {α : Type} (item : List Char → Option (α × List Char))
    (text : α → List Char) (closing : Char) (hclose : closing ≠ ',') (xs : List α)
    (hne : xs ≠ []) (hitem : ∀ x ∈ xs, ∀ rest, item (text x ++ rest) = some (x, rest))
    (fuel : Nat) (hfuel : xs.length ≤ fuel) (rest : List Char) :
    readItems item closing fuel (joinItems (xs.map text) ++ closing :: rest)
      = some (xs, rest) := by
  induction xs generalizing fuel with
  | nil => exact absurd rfl hne
  | cons x more ih =>
    cases fuel with
    | zero => simp at hfuel
    | succ f =>
      have hx := hitem x (by simp)
      cases more with
      | nil =>
        simp only [List.map_cons, List.map_nil, joinItems, readItems, hx]
        simp [hclose]
      | cons y more2 =>
        have hrec := ih (by simp) (fun z hz => hitem z (by simp [hz])) f
          (by simpa using hfuel)
        simp only [List.map_cons, joinItems, List.append_assoc, List.cons_append, readItems, hx]
        simp only [List.map_cons] at hrec
        simp [hrec]

theorem joinItems_length {α : Type} (text : α → List Char) (xs : List α)
    (h : ∀ x ∈ xs, text x ≠ []) : xs.length ≤ (joinItems (xs.map text)).length + 1 := by
  induction xs with
  | nil => simp
  | cons x more ih =>
    cases more with
    | nil => simp
    | cons y more2 =>
      have hrec := ih (fun z hz => h z (by simp [hz]))
      simp only [List.map_cons, joinItems, List.length_append, List.length_cons] at hrec ⊢
      omega

theorem readSeq_showSeq {α : Type} (item : List Char → Option (α × List Char))
    (text : α → List Char) (opening closing : Char) (hclose : closing ≠ ',') (xs : List α)
    (hitem : ∀ x ∈ xs, ∀ rest, item (text x ++ rest) = some (x, rest))
    (hhead : ∀ x ∈ xs, ∃ c t, text x = c :: t ∧ c ≠ closing) (rest : List Char) :
    readSeq item opening closing (showSeq opening closing (xs.map text) ++ rest)
      = some (xs, rest) := by
  cases xs with
  | nil => simp [showSeq, joinItems, readSeq]
  | cons x more =>
    have hne : ∀ z ∈ x :: more, text z ≠ [] := by
      intro z hz
      obtain ⟨c, t, hct, _⟩ := hhead z hz
      simp [hct]
    have hlen := joinItems_length text (x :: more) hne
    have hitems := fun fuel hf => readItems_join item text closing hclose (x :: more)
      (by simp) hitem fuel hf rest
    obtain ⟨c, t, hct, hc⟩ := hhead x (by simp)
    have hstart : ∃ t2, joinItems ((x :: more).map text) ++ closing :: rest = c :: t2 := by
      cases more with
      | nil => exact ⟨t ++ closing :: rest, by simp [joinItems, hct]⟩
      | cons y more2 => exact ⟨_, by simp [joinItems, hct]; rfl⟩
    obtain ⟨t2, ht2⟩ := hstart
    have hform : showSeq opening closing ((x :: more).map text) ++ rest
        = opening :: (joinItems ((x :: more).map text) ++ closing :: rest) := by
      simp [showSeq]
    rw [hform]
    have hlen2 : (x :: more).length
        ≤ (joinItems ((x :: more).map text) ++ closing :: rest).length := by
      simp only [List.length_append, List.length_cons] at hlen ⊢
      omega
    have hrun := hitems _ hlen2
    rw [ht2] at hrun ⊢
    simp only [readSeq, if_true, hc, if_false]
    exact hrun

theorem readPair_showPair (p : String × String) (rest : List Char) :
    readPair (showPair p ++ rest) = some (p, rest) := by
  have h : showPair p ++ rest = quote p.1 ++ (':' :: (quote p.2 ++ rest)) := by
    simp [showPair]
  simp [readPair, h, readString_quote, expect_char]

theorem readPairs_show (ps : List (String × String)) (rest : List Char) :
    readSeq readPair '{' '}' (showSeq '{' '}' (ps.map showPair) ++ rest) = some (ps, rest) :=
  readSeq_showSeq readPair showPair '{' '}' (by decide) ps
    (fun p _ r => readPair_showPair p r)
    (fun p _ => ⟨'"', escape p.1.data ++ ['"'] ++ ':' :: quote p.2,
      by simp [showPair, quote], by decide⟩) rest

theorem readOpt_showOpt (p : String × List (String × String)) (rest : List Char) :
    readOpt (showOpt p ++ rest) = some (p, rest) := by
  have h : showOpt p ++ rest
      = quote p.1 ++ (':' :: (showSeq '{' '}' (p.2.map showPair) ++ rest)) := by
    simp [showOpt]
  simp [readOpt, h, readString_quote, expect_char, readPairs_show]

theorem readOpts_show (os : List (String × List (String × String))) (rest : List Char) :
    readSeq readOpt '{' '}' (showSeq '{' '}' (os.map showOpt) ++ rest) = some (os, rest) :=
  readSeq_showSeq readOpt showOpt '{' '}' (by decide) os
    (fun p _ r => readOpt_showOpt p r)
    (fun p _ => ⟨'"', escape p.1.data ++ ['"'] ++ ':' :: showSeq '{' '}' (p.2.map showPair),
      by simp [showOpt, quote], by decide⟩) rest

theorem readProduct_showProduct (p : OrderProduct) (rest : List Char) :
    readProduct (showProduct p ++ rest) = some (p, rest) := by
  have h : showProduct p ++ rest
      = '{' :: (field "Code" (quote p.Code) ++ (',' ::
          (field "Options" (showSeq '{' '}' (p.Opts.map showOpt)) ++ (',' ::
            (field "Qty" (natText p.Qty) ++ ('}' :: rest)))))) := by
    simp [showProduct]
  rw [h]
  simp only [readProduct, expect_char, readField_field, readString_quote, readOpts_show,
    readNat_natText p.Qty '}' rest (by decide)]

theorem readProducts_show (ps : List OrderProduct) (rest : List Char) :
    readSeq readProduct '[' ']' (showSeq '[' ']' (ps.map showProduct) ++ rest)
      = some (ps, rest) :=
  readSeq_showSeq readProduct showProduct '[' ']' (by decide) ps
    (fun p _ r => readProduct_showProduct p r)
    (fun p _ => ⟨'{', _, rfl, by decide⟩) rest

theorem readStringField_field (key : String) (next : Char) (v : String) (rest : List Char) :
    readStringField key next (field key (quote v) ++ (next :: rest)) = some (v, rest) := by
  simp only [readStringField, readField_field, readString_quote, expect_char]

theorem readAddr_showAddr (a : StreetAddr) (rest : List Char) :
    readAddr (showAddr a ++ rest) = some (a, rest) := by
  have h : showAddr a ++ rest
      = '{' :: (field "StreetNum" (quote a.StreetNum) ++ (',' ::
          (field "StreetName" (quote a.StreetName) ++ (',' ::
            (field "Street" (quote a.Street) ++ (',' ::
              (field "CityName" (quote a.CityName) ++ (',' ::
                (field "State" (quote a.State) ++ (',' ::
                  (field "Zipcode" (quote a.Zipcode) ++ (',' ::
                    (field "AddrType" (quote a.AddrType) ++ ('}' :: rest)))))))))))))) := by
    simp [showAddr]
  rw [h]
  simp only [readAddr, expect_char, readStringField_field]

theorem readAddrPtr_show (a : Option StreetAddr) (rest : List Char) :
    readAddrPtr (showAddrPtr a ++ rest) = some (a, rest) := by
  cases a with
  | none =>
    have h := expect_append ['n', 'u', 'l', 'l'] rest
    simp only [showAddrPtr, readAddrPtr, h]
  | some a =>
    have hnull : expect ['n', 'u', 'l', 'l'] (showAddr a ++ rest) = none := by
      simp [showAddr, expect]
    simp only [showAddrPtr, readAddrPtr, hnull, readAddr_showAddr]

theorem readOrder_showOrder (o base : Order) (rest : List Char) :
    readOrder base (showOrder o ++ rest) = some (o.SetName base.OrderName, rest) := by
  have h : showOrder o ++ rest
      = '{' :: (field "LanguageCode" (quote o.LanguageCode) ++ (',' ::
          (field "ServiceMethod" (quote o.ServiceMethod) ++ (',' ::
            (field "Products" (showSeq '[' ']' (o.Products.map showProduct)) ++ (',' ::
              (field "StoreID" (quote o.StoreID) ++ (',' ::
                (field "OrderID" (quote o.OrderID) ++ (',' ::
                  (field "Address" (showAddrPtr o.Address) ++ ('}' :: rest)))))))))))) := by
    simp [showOrder]
  rw [h]
  simp only [readOrder, expect_char, readStringField_field, readField_field,
    readProducts_show, readAddrPtr_show]
  rfl

theorem jsonCodec_roundtrip (o base : Order) :
    jsonCodec.unmarshal (String.mk (showOrder o)) base = (o.SetName base.OrderName, none) := by
  have h := readOrder_showOrder o base []
  rw [List.append_nil] at h
  simp only [jsonCodec, h]

/-- C2. Round trip: for every order `o`, when `SaveOrder` stored the order (`Put` succeeded),
`GetOrder(o.Name(), db)` on the resulting store returns, with a nil error, an order whose
product list, address and service method are those of `o`. The order is written and read as
JSON text by `jsonCodec`. -/
theorem SaveOrder_GetOrder_roundtrip (validate : Order → Option GoError) (o : Order)
    (s : World)
    (hp : (s.db.Put (OrderPrefix ++ o.Name) (String.mk (showOrder o))).2 = none) :
    ∃ o', GetOrder jsonCodec o.Name (SaveOrder jsonCodec validate o s).2.db.Get
        = (some o', none) ∧
      o'.Products = o.Products ∧ o'.Address = o.Address ∧
      o'.ServiceMethod = o.ServiceMethod := by
  refine ⟨o, ?_, rfl, rfl, rfl⟩
  rw [SaveOrder_ok jsonCodec validate o s (String.mk (showOrder o)) rfl hp]
  have hf := (Put_ok s.db _ _ hp).2
  simp only [GetOrder, DataBase.Get, hf, lookupKey_upsert_self, jsonCodec_roundtrip, Pair]
  rfl

/-- Witness of C2: the sample order is saved while the vendor rejects it, and loaded again. -/
theorem SaveOrder_GetOrder_roundtrip_witness :
    ∃ o', GetOrder jsonCodec sampleOrder.Name
        (SaveOrder jsonCodec (fun _ => some (vendorError (-1))) sampleOrder
          sampleWorld).2.db.Get = (some o', none) ∧
      o'.Products = sampleOrder.Products ∧ o'.Address = sampleOrder.Address ∧
      o'.ServiceMethod = sampleOrder.ServiceMethod :=
  SaveOrder_GetOrder_roundtrip (fun _ => some (vendorError (-1))) sampleOrder sampleWorld
    (by decide)

end Apizza
